import Mathlib

/-!
Verification of the intent-classification layer and the error-handling
boundaries of the Dynatrace A2A agent (files `agent_executor.py` and
`dynatrace_agent.py`).

Strings are modelled as `List Char` with ASCII semantics for
case-mapping, whitespace and the character classes used by the regular
expressions in `_parse_intent`.  Each Python regular expression is
embedded as a value of the small inductive type `RE` below, and the
Python `re.search` / `re.match` semantics (leftmost match position,
alternation tried in written order, greedy repetition with
backtracking) are realised by `matchAll`, which returns every
accepting residual in exactly Python's backtracking priority order;
`searchAll` takes the first.
-/

/-! ## ASCII character helpers -/

/-- ASCII whitespace, matching Python's `\s` and `str.strip()` on ASCII text:
space (32), tab (9), newline (10), vertical tab (11), form feed (12),
carriage return (13). -/
def isSpaceB (c : Char) : Bool := decide (c.toNat = 32 ∨ (9 ≤ c.toNat ∧ c.toNat ≤ 13))

/-- ASCII digit, matching `\d` on ASCII text. -/
def isDigitB (c : Char) : Bool := decide (48 ≤ c.toNat ∧ c.toNat ≤ 57)

/-- Double or single quote, the class `["']`. -/
def isQuoteB (c : Char) : Bool := decide (c.toNat = 34 ∨ c.toNat = 39)

/-- The class `[a-zA-Z0-9_\-\.]` used by the topology patterns. -/
def isNameB (c : Char) : Bool :=
  decide ((48 ≤ c.toNat ∧ c.toNat ≤ 57) ∨ (65 ≤ c.toNat ∧ c.toNat ≤ 90) ∨
    (97 ≤ c.toNat ∧ c.toNat ≤ 122) ∨ c.toNat = 95 ∨ c.toNat = 45 ∨ c.toNat = 46)

/-- The class `[A-Z0-9]` under `re.IGNORECASE`, i.e. ASCII alphanumerics. -/
def isAlnumB (c : Char) : Bool :=
  decide ((48 ≤ c.toNat ∧ c.toNat ≤ 57) ∨ (65 ≤ c.toNat ∧ c.toNat ≤ 90) ∨
    (97 ≤ c.toNat ∧ c.toNat ≤ 122))

/-- Python `str.lower()` on ASCII text, applied characterwise. -/
def lowerL (s : List Char) : List Char := s.map Char.toLower

/-- Python `str.upper()` on ASCII text, applied characterwise. -/
def upperL (s : List Char) : List Char := s.map Char.toUpper

/-- Python `str.strip()`: drop leading and trailing whitespace. -/
def stripL (s : List Char) : List Char :=
  ((s.dropWhile isSpaceB).reverse.dropWhile isSpaceB).reverse

/-- Does `s` start with `w`?  (`str.startswith`.) -/
def startsWithL : List Char → List Char → Bool
  | [], _ => true
  | _ :: _, [] => false
  | w :: ws, c :: cs => decide (w = c) && startsWithL ws cs

/-- Does `s` contain `w` as a contiguous substring?  (Python `w in s`.) -/
def containsSub (w : List Char) : List Char → Bool
  | [] => startsWithL w []
  | c :: t => startsWithL w (c :: t) || containsSub w t

/-- Python `"\n".join(output)`. -/
def joinNL : List (List Char) → List Char
  | [] => []
  | [x] => x
  | x :: xs => x ++ '\n' :: joinNL xs

/-! ## Regular-expression engine

The constructors cover exactly the syntax used by the eleven patterns
in `_parse_intent`: literal characters (optionally case-insensitive via
the class predicate), character classes, concatenation, ordered
alternation, `?`, `*` and `+` over a character class, and capture
groups. -/

inductive RE where
  | eps
  | cls (p : Char → Bool)
  | seq (a b : RE)
  | alt (a b : RE)
  | opt (a : RE)
  | starCls (p : Char → Bool)
  | plusCls (p : Char → Bool)
  | group (a : RE)

/-- Captured substrings of a single match attempt, in order of opening. -/
abbrev Caps := List (List Char)

/-- All accepting outcomes of a match attempt: residual input paired with
the captures, listed in backtracking priority order. -/
abbrev MRes := List (List Char × Caps)

/-- Residuals `s.drop n, s.drop (n-1), ..., s.drop 0`: the greedy
(longest-first) outcomes of a `*` repetition that can consume up to `n`
characters. -/
def dropsDesc (s : List Char) : Nat → MRes
  | 0 => [(s, [])]
  | j+1 => (s.drop (j+1), []) :: dropsDesc s j

/-- Residuals `s.drop n, ..., s.drop 1`: the greedy outcomes of a `+`
repetition (at least one character). -/
def dropsDescPos (s : List Char) : Nat → MRes
  | 0 => []
  | j+1 => (s.drop (j+1), []) :: dropsDescPos s j

/-- All ways `r` can match a leading segment of `s`, as (residual,
captures) pairs in Python's backtracking priority order: alternatives in
written order, repetition longest-first. -/
def matchAll : RE → List Char → MRes
  | .eps, s => [(s, [])]
  | .cls _, [] => []
  | .cls p, c :: t => if p c then [(t, [])] else []
  | .seq a b, s =>
      (matchAll a s).flatMap (fun ra =>
        (matchAll b ra.1).map (fun rb => (rb.1, ra.2 ++ rb.2)))
  | .alt a b, s => matchAll a s ++ matchAll b s
  | .opt a, s => matchAll a s ++ [(s, [])]
  | .starCls p, s => dropsDesc s (s.takeWhile p).length
  | .plusCls p, s => dropsDescPos s (s.takeWhile p).length
  | .group a, s =>
      (matchAll a s).map (fun ra => (ra.1, ra.2 ++ [s.take (s.length - ra.1.length)]))

/-- Python `re.search`: try match positions left to right, and at the
first position with any outcome return the captures of the
highest-priority one. -/
def searchAll (r : RE) : List Char → Option Caps
  | [] => (matchAll r []).head?.map (fun ra => ra.2)
  | c :: t =>
      match matchAll r (c :: t) with
      | ra :: _ => some ra.2
      | [] => searchAll r t

/-- Python `re.match` of a pattern of the form `^...$`: a match anchored
at position 0 that must consume the whole input. -/
def matchFullCaps (r : RE) (s : List Char) : Option Caps :=
  ((matchAll r s).filter (fun ra => ra.1.isEmpty)).head?.map (fun ra => ra.2)

/-- Can `r` accept the empty string? -/
def nullable : RE → Bool
  | .eps => true
  | .cls _ => false
  | .seq a b => nullable a && nullable b
  | .alt a b => nullable a || nullable b
  | .opt _ => true
  | .starCls _ => true
  | .plusCls _ => false
  | .group a => nullable a

/-- Can a match of `r` begin with the character `c`?  (An
over-approximation used to refute matches.) -/
def firstB : RE → Char → Bool
  | .eps, _ => false
  | .cls p, c => p c
  | .seq a b, c => firstB a c || (nullable a && firstB b c)
  | .alt a b, c => firstB a c || firstB b c
  | .opt a, c => firstB a c
  | .starCls p, c => p c
  | .plusCls p, c => p c
  | .group a, c => firstB a c

/-- A case-sensitive literal character. -/
def litChar (c : Char) : RE := .cls (fun x => decide (x.toNat = c.toNat))

/-- A literal character under `re.IGNORECASE` (ASCII case folding). -/
def litCI (c : Char) : RE :=
  .cls (fun x => decide ((Char.toLower x).toNat = (Char.toLower c).toNat))

/-- A case-sensitive literal string. -/
def strR : List Char → RE
  | [] => .eps
  | c :: cs => .seq (litChar c) (strR cs)

/-- A literal string under `re.IGNORECASE`. -/
def strCIR : List Char → RE
  | [] => .eps
  | c :: cs => .seq (litCI c) (strCIR cs)

def strS (s : String) : RE := strR s.toList

def strCI (s : String) : RE := strCIR s.toList

/-- Concatenation of a list of regular expressions. -/
def rseq : List RE → RE
  | [] => .eps
  | [r] => r
  | r :: rs => .seq r (rseq rs)

/-- Ordered alternation of a list of regular expressions. -/
def altN : List RE → RE
  | [] => .cls (fun _ => false)
  | [r] => r
  | r :: rs => .alt r (altN rs)

/-- `\s*` -/
def wsStar : RE := .starCls isSpaceB

/-- `["']?` -/
def quoteOpt : RE := .opt (.cls isQuoteB)

/-! ## The eleven regular expressions of `_parse_intent`

Each definition transcribes one Python pattern literal.  The patterns
run against the lower-cased stripped query except where noted. -/

/-- `(?:show|list|get|what are|any)\s*(?:the\s*)?(?:open\s*)?problems?` -/
def reProblem1 : RE := rseq
  [altN [strS "show", strS "list", strS "get", strS "what are", strS "any"],
   wsStar, .opt (rseq [strS "the", wsStar]), .opt (rseq [strS "open", wsStar]),
   strS "problem", .opt (litChar 's')]

/-- `what(?:'s| is) wrong` -/
def reProblem2 : RE := rseq
  [strS "what", altN [strS "'s", strS " is"], strS " wrong"]

/-- `any\s*(?:open\s*)?issues?` -/
def reProblem3 : RE := rseq
  [strS "any", wsStar, .opt (rseq [strS "open", wsStar]),
   strS "issue", .opt (litChar 's')]

/-- `current\s*(?:problems?|issues?|alerts?)` -/
def reProblem4 : RE := rseq
  [strS "current", wsStar,
   altN [rseq [strS "problem", .opt (litChar 's')],
         rseq [strS "issue", .opt (litChar 's')],
         rseq [strS "alert", .opt (litChar 's')]]]

/-- `(?:show|list)\s*alerts?` -/
def reProblem5 : RE := rseq
  [altN [strS "show", strS "list"], wsStar, strS "alert", .opt (litChar 's')]

def problem_patterns : List RE :=
  [reProblem1, reProblem2, reProblem3, reProblem4, reProblem5]

/-- `(?:last|past)\s*(\d+)\s*(h|hour|d|day|w|week)` -/
def reTime : RE := rseq
  [altN [strS "last", strS "past"], wsStar, .group (.plusCls isDigitB), wsStar,
   .group (altN [strS "h", strS "hour", strS "d", strS "day", strS "w", strS "week"])]

/-- `P-\d+` under `re.IGNORECASE` (the shared problem-id shape). -/
def reP : RE := rseq [litCI 'P', litCI '-', .plusCls isDigitB]

/-- `(P-\d+)` under `re.IGNORECASE`, searched in the original-case query. -/
def rePIDfind : RE := .group reP

/-- `(?:analyze|investigate|root\s*cause|details?\s*(?:for|of|about)?|explain)\s*(?:problem\s*)?["']?(P-\d+)["']?` with `re.IGNORECASE` -/
def reAnalyze1 : RE := rseq
  [altN [strCI "analyze", strCI "investigate",
         rseq [strCI "root", wsStar, strCI "cause"],
         rseq [strCI "detail", .opt (litCI 's'), wsStar,
               .opt (altN [strCI "for", strCI "of", strCI "about"])],
         strCI "explain"],
   wsStar, .opt (rseq [strCI "problem", wsStar]), quoteOpt, .group reP, quoteOpt]

/-- `(?:what(?:'s| is)\s*(?:causing|wrong\s*with))\s*(?:problem\s*)?["']?(P-\d+)["']?` with `re.IGNORECASE` -/
def reAnalyze2 : RE := rseq
  [strCI "what", altN [strCI "'s", strCI " is"], wsStar,
   altN [strCI "causing", rseq [strCI "wrong", wsStar, strCI "with"]],
   wsStar, .opt (rseq [strCI "problem", wsStar]), quoteOpt, .group reP, quoteOpt]

/-- `["']?(P-\d+)["']?\s*(?:analysis|details?|root\s*cause)` with `re.IGNORECASE` -/
def reAnalyze3 : RE := rseq
  [quoteOpt, .group reP, quoteOpt, wsStar,
   altN [strCI "analysis", rseq [strCI "detail", .opt (litCI 's')],
         rseq [strCI "root", wsStar, strCI "cause"]]]

def analyze_patterns : List RE := [reAnalyze1, reAnalyze2, reAnalyze3]

/-- `^P-\d+$` with `re.IGNORECASE`, used via `re.match` on the stripped query. -/
def reStandalone : RE := reP

/-- `(?:topology|dependencies|dependency|architecture|map)\s*(?:for|of)?\s*["']?([a-zA-Z0-9_\-\.]+)["']?` -/
def reTopo1 : RE := rseq
  [altN [strS "topology", strS "dependencies", strS "dependency",
         strS "architecture", strS "map"],
   wsStar, .opt (altN [strS "for", strS "of"]), wsStar,
   quoteOpt, .group (.plusCls isNameB), quoteOpt]

/-- `(?:what\s*(?:does|services?))\s*["']?([a-zA-Z0-9_\-\.]+)["']?\s*(?:call|depend|connect)` -/
def reTopo2 : RE := rseq
  [strS "what", wsStar, altN [strS "does", rseq [strS "service", .opt (litChar 's')]],
   wsStar, quoteOpt, .group (.plusCls isNameB), quoteOpt, wsStar,
   altN [strS "call", strS "depend", strS "connect"]]

/-- `["']?([a-zA-Z0-9_\-\.]+)["']?\s*(?:topology|dependencies|architecture)` -/
def reTopo3 : RE := rseq
  [quoteOpt, .group (.plusCls isNameB), quoteOpt, wsStar,
   altN [strS "topology", strS "dependencies", strS "architecture"]]

def topology_patterns : List RE := [reTopo1, reTopo2, reTopo3]

/-- `["']?({re.escape(service_name)})["']?` with `re.IGNORECASE`: the
pattern used to re-locate a matched service name in the original-case
query (`re.escape` makes every character of the name literal). -/
def relocRe (service_name : List Char) : RE :=
  rseq [quoteOpt, .group (strCIR service_name), quoteOpt]

/-- `(?:HOST|SERVICE|PROCESS|APPLICATION)-[A-Z0-9]+` with `re.IGNORECASE`. -/
def reEnt : RE := rseq
  [altN [strCI "HOST", strCI "SERVICE", strCI "PROCESS", strCI "APPLICATION"],
   litCI '-', .plusCls isAlnumB]

/-- `(?:health|status|metrics?|check)\s*(?:for|of)?\s*["']?((?:HOST|SERVICE|PROCESS|APPLICATION)-[A-Z0-9]+)["']?` with `re.IGNORECASE` -/
def reHealth1 : RE := rseq
  [altN [strCI "health", strCI "status", rseq [strCI "metric", .opt (litCI 's')],
         strCI "check"],
   wsStar, .opt (altN [strCI "for", strCI "of"]), wsStar,
   quoteOpt, .group reEnt, quoteOpt]

/-- `["']?((?:HOST|SERVICE|PROCESS|APPLICATION)-[A-Z0-9]+)["']?\s*(?:health|status|metrics?)` with `re.IGNORECASE` -/
def reHealth2 : RE := rseq
  [quoteOpt, .group reEnt, quoteOpt, wsStar,
   altN [strCI "health", strCI "status", rseq [strCI "metric", .opt (litCI 's')]]]

/-- `how\s*is\s*["']?((?:HOST|SERVICE|PROCESS|APPLICATION)-[A-Z0-9]+)["']?` with `re.IGNORECASE` -/
def reHealth3 : RE := rseq
  [strCI "how", wsStar, strCI "is", wsStar, quoteOpt, .group reEnt, quoteOpt]

def health_patterns : List RE := [reHealth1, reHealth2, reHealth3]

/-- `(?:create|generate|make)\s*(?:servicenow\s*)?incident\s*(?:for|from)?\s*["']?(P-\d+)["']?` with `re.IGNORECASE` -/
def reInc1 : RE := rseq
  [altN [strCI "create", strCI "generate", strCI "make"], wsStar,
   .opt (rseq [strCI "servicenow", wsStar]), strCI "incident", wsStar,
   .opt (altN [strCI "for", strCI "from"]), wsStar, quoteOpt, .group reP, quoteOpt]

/-- `(?:servicenow|snow)\s*(?:summary|incident)\s*(?:for)?\s*["']?(P-\d+)["']?` with `re.IGNORECASE` -/
def reInc2 : RE := rseq
  [altN [strCI "servicenow", strCI "snow"], wsStar,
   altN [strCI "summary", strCI "incident"], wsStar, .opt (strCI "for"),
   wsStar, quoteOpt, .group reP, quoteOpt]

/-- `["']?(P-\d+)["']?\s*(?:servicenow|snow|incident)` with `re.IGNORECASE` -/
def reInc3 : RE := rseq
  [quoteOpt, .group reP, quoteOpt, wsStar,
   altN [strCI "servicenow", strCI "snow", strCI "incident"]]

def incident_patterns : List RE := [reInc1, reInc2, reInc3]

/-! ## `_parse_intent` -/

/-- Parameter dictionary of an intent: string keys to string values. -/
abbrev Params := List (String × List Char)

/-- Time-range extraction inside rule 1: search for
`(?:last|past)\s*(\d+)\s*(h|hour|d|day|w|week)` and build
`f"{num}{unit}"` with `unit = group(2)[0]`, defaulting to `"24h"`. -/
def time_range_of (ql : List Char) : List Char :=
  match searchAll reTime ql with
  | some caps => caps.headD [] ++ (caps.getD 1 []).take 1
  | none => "24h".toList

/-- Rule 1 loop over `problem_patterns`. -/
def problemLoop (ql : List Char) : List RE → Option (String × Params)
  | [] => none
  | p :: ps =>
      if (searchAll p ql).isSome then
        some ("get_problems", [("time_range", time_range_of ql)])
      else problemLoop ql ps

/-- Rule 2 loop over `analyze_patterns`: on a pattern hit the problem id
is re-searched in the original-case query; if that inner search fails the
Python loop falls through to the next pattern. -/
def analyzeLoop (q ql : List Char) : List RE → Option (String × Params)
  | [] => none
  | p :: ps =>
      if (searchAll p ql).isSome then
        match searchAll rePIDfind q with
        | some caps => some ("analyze_problem", [("problem_id", upperL (caps.headD []))])
        | none => analyzeLoop q ql ps
      else analyzeLoop q ql ps

/-- Rule 3 loop over `topology_patterns`, with the re-location of the
matched name in the original-case query. -/
def topologyLoop (q ql : List Char) : List RE → Option (String × Params)
  | [] => none
  | p :: ps =>
      match searchAll p ql with
      | some caps =>
          match searchAll (relocRe (caps.headD [])) q with
          | some caps2 => some ("get_topology", [("service_name", caps2.headD [])])
          | none => some ("get_topology", [("service_name", caps.headD [])])
      | none => topologyLoop q ql ps

/-- Rule 4 loop over `health_patterns`; note these are searched in the
original-case query (with `re.IGNORECASE`). -/
def healthLoop (q : List Char) : List RE → Option (String × Params)
  | [] => none
  | p :: ps =>
      match searchAll p q with
      | some caps => some ("get_health", [("entity_id", upperL (caps.headD []))])
      | none => healthLoop q ps

/-- Rule 5 loop over `incident_patterns`, same shape as rule 2. -/
def incidentLoop (q ql : List Char) : List RE → Option (String × Params)
  | [] => none
  | p :: ps =>
      if (searchAll p ql).isSome then
        match searchAll rePIDfind q with
        | some caps => some ("create_incident", [("problem_id", upperL (caps.headD []))])
        | none => incidentLoop q ql ps
      else incidentLoop q ql ps

/-- `DynatraceAgentExecutor._parse_intent`: ordered rule matching over
the lower-cased stripped query, returning the skill name and its
parameters, with the natural-language fallback carrying the verbatim
query. -/
def parse_intent (query : List Char) : String × Params :=
  let query_lower := stripL (lowerL query)
  match problemLoop query_lower problem_patterns with
  | some r => r
  | none =>
      match analyzeLoop query query_lower analyze_patterns with
      | some r => r
      | none =>
          if (matchFullCaps reStandalone (stripL query)).isSome then
            ("analyze_problem", [("problem_id", upperL (stripL query))])
          else
            match topologyLoop query query_lower topology_patterns with
            | some r => r
            | none =>
                match healthLoop query health_patterns with
                | some r => r
                | none =>
                    match incidentLoop query query_lower incident_patterns with
                    | some r => r
                    | none => ("query", [("question", query)])

/-- The closed enumeration of action tags the classifier can emit. -/
def sixActions : List String :=
  ["get_problems", "analyze_problem", "get_topology", "get_health",
   "create_incident", "query"]

/-- No pattern of rules 1-5 (including the standalone problem-id check)
matches the query: the hypothesis of the fallback clause. -/
def noRuleMatchesB (query : List Char) : Bool :=
  let ql := stripL (lowerL query)
  problem_patterns.all (fun p => (searchAll p ql).isNone) &&
  analyze_patterns.all (fun p => (searchAll p ql).isNone) &&
  (matchFullCaps reStandalone (stripL query)).isNone &&
  topology_patterns.all (fun p => (searchAll p ql).isNone) &&
  health_patterns.all (fun p => (searchAll p query).isNone) &&
  incident_patterns.all (fun p => (searchAll p ql).isNone)

/-- The ten ASCII digits (for case exhaustion over `isDigitB`). -/
def digitChars : List Char := "0123456789".toList

/-! ## `DynatraceAgentExecutor.execute`

The six skills of `DynatraceAgent` perform network and AI calls; for
the executor they are opaque coroutines that either return a response
string or raise.  They are modelled as an oracle record of functions
into `Except`, where `Except.error e` stands for a raised exception
whose `str(e)` is `e`. -/

structure Skills where
  get_open_problems : List Char → Except (List Char) (List Char)
  analyze_problem : List Char → Except (List Char) (List Char)
  get_service_topology : List Char → Except (List Char) (List Char)
  get_entity_health : List Char → Except (List Char) (List Char)
  create_incident_summary : List Char → Except (List Char) (List Char)
  query : List Char → Except (List Char) (List Char)

/-- Python `params.get(k, d)`. -/
def getParamD (ps : Params) (k : String) (d : List Char) : List Char :=
  match ps.lookup k with
  | some v => v
  | none => d

/-- Python `params[k]` for the keys `parse_intent` always supplies on
the corresponding branch (a `KeyError` is unreachable, so the default
is never observable). -/
def getParamReq (ps : Params) (k : String) : List Char := getParamD ps k []

/-- The `if skill == ... / elif ... / else` dispatch of `execute`,
lines 181-209 of `agent_executor.py`. -/
def dispatch (s : Skills) (skill : String) (params : Params) (query : List Char) :
    Except (List Char) (List Char) :=
  if skill = "get_problems" then
    s.get_open_problems (getParamD params "time_range" ("24h".toList))
  else if skill = "analyze_problem" then
    s.analyze_problem (getParamReq params "problem_id")
  else if skill = "get_topology" then
    s.get_service_topology (getParamReq params "service_name")
  else if skill = "get_health" then
    s.get_entity_health (getParamReq params "entity_id")
  else if skill = "create_incident" then
    s.create_incident_summary (getParamReq params "problem_id")
  else
    s.query (getParamD params "question" query)

/-- `f"❌ Error executing {skill}: {str(e)}"` -/
def errorReply (skill : String) (e : List Char) : List Char :=
  "❌ Error executing ".toList ++ skill.toList ++ ": ".toList ++ e

/-- The help text returned by `_get_help_message`. -/
def get_help_message : List Char :=
  ("# 🔷 Dynatrace AI Agent\n\nI'm your AI-powered observability assistant for Dynatrace! Here's what I can do:\n\n## 📋 Available Commands\n\n### 🚨 Get Problems\nView open problems detected by Davis AI:\n- \"Show open problems\"\n- \"List issues from the last 7 days\"\n- \"Any current alerts?\"\n\n### 🔍 Analyze Problem (Root Cause)\nDeep-dive into a specific problem:\n- \"Analyze P-12345678\"\n- \"Root cause for P-87654321\"\n- \"Investigate problem P-11111111\"\n\n### 🌐 Service Topology\nView service dependencies:\n- \"Topology for OrderService\"\n- \"Dependencies of payment-service\"\n- \"What does checkout-api call?\"\n\n### 🏥 Entity Health\nCheck health of a specific entity:\n- \"Health of HOST-ABC123\"\n- \"Status of SERVICE-XYZ789\"\n- \"Metrics for PROCESS-DEF456\"\n\n### 📋 ServiceNow Integration\nCreate incident summary for ServiceNow:\n- \"Create incident for P-12345678\"\n- \"ServiceNow summary P-87654321\"\n\n### 💬 Natural Language\nAsk any question about your environment:\n- \"What services are affected by the current issues?\"\n- \"Are there any database-related problems?\"\n- \"How many hosts are monitored?\"\n\n---\n**Tip:** Provide a Problem ID (like `P-12345678`) for detailed analysis!\n").toList

/-- `DynatraceAgentExecutor._extract_query`: the first message part with
a non-empty `text` attribute, else the empty string.  A part is `none`
when it has no `text` attribute. -/
def extract_query : List (Option (List Char)) → List Char
  | [] => []
  | some t :: rest => if t.isEmpty then extract_query rest else t
  | none :: rest => extract_query rest

/-- `DynatraceAgentExecutor.execute`: help message on an empty query,
otherwise classify, dispatch, and convert a raised exception into the
error-marker reply.  The returned string is the single text message
enqueued for the caller. -/
def execute (s : Skills) (query : List Char) : List Char :=
  if query.isEmpty then get_help_message
  else
    let sp := parse_intent query
    match dispatch s sp.1 sp.2 query with
    | .ok r => r
    | .error e => errorReply sp.1 e

/-- `execute` as invoked on a request context whose message parts are
`parts`. -/
def executeOnContext (s : Skills) (parts : List (Option (List Char))) : List Char :=
  execute s (extract_query parts)

/-! ## `DynatraceAgent.analyze_problem` and `_ai_analyze`

The file `dynatrace_agent.py` is stored with mojibake text: its string
literals contain the characters that result from decoding the UTF-8
bytes of the intended emoji as Latin/Mac text (for example the error
marker is the three characters `‚ùå`, and section headers start with
U+F8FF).  The definitions below reproduce those literals exactly as
they appear in the source. -/

structure Evidence where
  evidenceType : Option (List Char)
  displayName : Option (List Char)
  rootCauseRelevant : Bool

structure EntityRef where
  name : Option (List Char)
  entityIdId : Option (List Char)
  entityIdType : Option (List Char)

structure Impact where
  impactedUsers : Option Int

structure Deployment where
  title : Option (List Char)
  startTime : Int

/-- The fields of the problem-details dictionary that
`analyze_problem` reads. -/
structure ProblemDetails where
  title : Option (List Char)
  status : Option (List Char)
  severityLevel : Option (List Char)
  evidence : List Evidence
  affectedEntities : List EntityRef
  rootCauseEntity : Option EntityRef
  impacts : List Impact

structure AiEvidence where
  type : Option (List Char)
  name : Option (List Char)
  is_root_cause : Bool

structure AiDeployment where
  title : List Char
  timestamp : Int

/-- The `ai_context` dictionary assembled in step 6 of
`analyze_problem`. -/
structure AiContext where
  problem_title : List Char
  severity : List Char
  root_cause_entity : List Char
  root_cause_entity_type : List Char
  evidence : List AiEvidence
  affected_entities_count : Nat
  impacted_users : Int
  recent_deployments : List AiDeployment

/-- External collaborators of `DynatraceAgent.analyze_problem`: the two
Dynatrace client calls and the Gemini generation call (each may raise,
modelled as `Except.error (str e)`), plus the two standard-library
calls `json.dumps(..., indent=2)` and
`datetime.fromtimestamp(ts / 1000).strftime("%Y-%m-%d %H:%M")` (the
latter depends on the local time zone, so both are oracle
parameters). -/
structure AnalyzeEnv where
  get_problem_details : List Char → Except (List Char) ProblemDetails
  get_recent_deployments : List Char → List Char → Except (List Char) (List Deployment)
  generate_content : List Char → Except (List Char) (List Char)
  json_dumps : AiContext → List Char
  format_timestamp : Int → List Char

/-- `DynatraceAgent._ai_analyze`: return the stripped generated text,
and turn any raised exception into the fixed unavailability string. -/
def ai_analyze (env : AnalyzeEnv) (prompt : List Char) : List Char :=
  match env.generate_content prompt with
  | .ok text => stripL text
  | .error e => "AI analysis unavailable: ".toList ++ e

/-- Step 5 of `analyze_problem`: fetch deployments near the root-cause
entity; absent entity, empty id, or a raised exception (`except: pass`)
all leave the list empty. -/
def fetchDeployments (env : AnalyzeEnv) (problem : ProblemDetails) : List Deployment :=
  match problem.rootCauseEntity with
  | none => []
  | some rc =>
      let entity_id := rc.entityIdId.getD []
      if entity_id.isEmpty then []
      else
        match env.get_recent_deployments
            ("entityId(\"".toList ++ entity_id ++ "\")".toList) ("now-7d".toList) with
        | .ok events => events
        | .error _ => []

/-- Step 6 of `analyze_problem`: the `ai_context` dictionary. -/
def buildAiContext (title severity : List Char) (problem : ProblemDetails)
    (deployments : List Deployment) : AiContext :=
  { problem_title := title
    severity := severity
    root_cause_entity :=
      (match problem.rootCauseEntity with
       | some rc => rc.name
       | none => none).getD ("Unknown".toList)
    root_cause_entity_type :=
      (match problem.rootCauseEntity with
       | some rc => rc.entityIdType
       | none => none).getD ("Unknown".toList)
    evidence := (problem.evidence.take 10).map (fun e =>
      { type := e.evidenceType, name := e.displayName,
        is_root_cause := e.rootCauseRelevant })
    affected_entities_count := problem.affectedEntities.length
    impacted_users := ((problem.impacts.filterMap (fun i => i.impactedUsers)).foldl (· + ·) 0)
    recent_deployments := (deployments.take 5).map (fun d =>
      { title := d.title.getD ("Unknown".toList), timestamp := d.startTime }) }

/-- The fixed text of the analysis prompt before the JSON context. -/
def aiPromptHead : List Char :=
  ("You are an expert SRE/DevOps engineer analyzing a Dynatrace problem.\n\n**Problem Context:**\n").toList

/-- The fixed text of the analysis prompt after the JSON context. -/
def aiPromptTail : List Char :=
  ("\n\nBased on this data, provide:\n\n1. **Root Cause Determination**: What is the most likely root cause based on the evidence?\n\n2. **Correlation Analysis**: Are there any correlations between the evidence (e.g., deployment before the issue, metric anomalies)?\n\n3. **Impact Assessment**: How severe is this issue and what is affected?\n\n4. **Recommended Remediation**: What specific actions should the ops team take?\n\n5. **Prevention**: How can this be prevented in the future?\n\nBe specific and actionable. Reference the actual evidence provided.").toList

/-- One evidence line of the report (line 220-221 of the source, with
the source's mojibake markers). -/
def evidenceLine (e : Evidence) : List Char :=
  let marker := if e.rootCauseRelevant then "üî¥".toList else "‚ö™".toList
  marker ++ " **".toList ++ e.evidenceType.getD ("N/A".toList) ++ "**: ".toList ++
    e.displayName.getD ("N/A".toList)

/-- One deployment line of the report (lines 227-232). -/
def deployLine (env : AnalyzeEnv) (d : Deployment) : List Char :=
  let deploy_time := if d.startTime = 0 then "Unknown".toList
    else env.format_timestamp d.startTime
  "‚Ä¢ ".toList ++ d.title.getD ("Unknown".toList) ++ " (".toList ++ deploy_time ++ ")".toList

/-- Step 8 of `analyze_problem`: the formatted report, as the list of
output lines joined with newlines; `ai_analysis` is the last line. -/
def analysisReport (env : AnalyzeEnv) (problem_id title status severity : List Char)
    (evidence_list : List Evidence) (deployments : List Deployment)
    (ai_analysis : List Char) : List Char :=
  joinNL
    (["# üîç Root Cause Analysis: ".toList ++ title,
      "\n**Problem ID:** `".toList ++ problem_id ++ "`".toList,
      "**Status:** ".toList ++ status ++ " | **Severity:** ".toList ++ severity,
      "\n---\n".toList,
      "## üìä Evidence Summary\n".toList]
     ++ (evidence_list.take 5).map evidenceLine
     ++ (if deployments.isEmpty then [] else
          "\n## üöÄ Recent Deployments\n".toList ::
            (deployments.take 3).map (deployLine env))
     ++ ["\n---\n".toList, "## ü§ñ AI-Powered Analysis\n".toList, ai_analysis])

/-- `DynatraceAgent.analyze_problem`: fetch details, gather evidence and
deployments, run the AI analysis and assemble the report; a raised
exception from the details fetch produces the error-marker reply of
line 242. -/
def analyze_problem (env : AnalyzeEnv) (problem_id : List Char) : List Char :=
  match env.get_problem_details problem_id with
  | .error e => "‚ùå Error analyzing problem ".toList ++ problem_id ++ ": ".toList ++ e
  | .ok problem =>
      let title := problem.title.getD ("Unknown Problem".toList)
      let status := problem.status.getD ("UNKNOWN".toList)
      let severity := problem.severityLevel.getD ("UNKNOWN".toList)
      let deployments := fetchDeployments env problem
      let ai_context := buildAiContext title severity problem deployments
      let ai_prompt := aiPromptHead ++ env.json_dumps ai_context ++ aiPromptTail
      let ai_analysis := ai_analyze env ai_prompt
      analysisReport env problem_id title status severity problem.evidence
        deployments ai_analysis

/-- A skills oracle every invocation of which raises an exception whose
string representation is `boom` (used to witness the error boundary). -/
def failingSkills : Skills where
  get_open_problems _ := .error ("boom".toList)
  analyze_problem _ := .error ("boom".toList)
  get_service_topology _ := .error ("boom".toList)
  get_entity_health _ := .error ("boom".toList)
  create_incident_summary _ := .error ("boom".toList)
  query _ := .error ("boom".toList)

/-- A concrete problem-details record (used to witness the analysis
flow). -/
def samplePD : ProblemDetails where
  title := some ("CPU spike".toList)
  status := some ("OPEN".toList)
  severityLevel := some ("AVAILABILITY".toList)
  evidence := []
  affectedEntities := []
  rootCauseEntity := none
  impacts := []

/-- A concrete analysis environment whose AI generation call always
raises with message `quota` (used to witness the analysis flow). -/
def sampleEnv : AnalyzeEnv where
  get_problem_details _ := .ok samplePD
  get_recent_deployments _ _ := .error ("net".toList)
  generate_content _ := .error ("quota".toList)
  json_dumps _ := "json".toList
  format_timestamp _ := "2024-01-01 00:00".toList

/-! ## Character-level lemmas -/

theorem charToNat_ofNat {n : Nat} (h : n < 55296) : (Char.ofNat n).toNat = n := by
  have hv : n.isValidChar := Or.inl h
  simp only [Char.ofNat, dif_pos hv, Char.ofNatAux, Char.toNat, UInt32.toNat]
  rfl

theorem charToNat_inj {a b : Char} (h : a.toNat = b.toNat) : a = b := by
  apply Char.ext
  exact UInt32.toNat.inj h

theorem toNat_toLower (c : Char) :
    (Char.toLower c).toNat =
      if 65 ≤ c.toNat ∧ c.toNat ≤ 90 then c.toNat + 32 else c.toNat := by
  unfold Char.toLower
  split
  · next h => rw [if_pos h, charToNat_ofNat (by omega)]
  · next h => rw [if_neg h]

theorem isSpaceB_toLower (c : Char) : isSpaceB (Char.toLower c) = isSpaceB c := by
  simp only [isSpaceB, toNat_toLower]
  rcases Decidable.em (65 ≤ c.toNat ∧ c.toNat ≤ 90) with h | h
  · rw [if_pos h, decide_eq_decide]
    omega
  · rw [if_neg h]

theorem isDigitB_toLower (c : Char) : isDigitB (Char.toLower c) = isDigitB c := by
  simp only [isDigitB, toNat_toLower]
  rcases Decidable.em (65 ≤ c.toNat ∧ c.toNat ≤ 90) with h | h
  · rw [if_pos h, decide_eq_decide]
    omega
  · rw [if_neg h]

theorem toNat_toLower_of_digit {c : Char} (h : isDigitB c = true) :
    (Char.toLower c).toNat = c.toNat := by
  have hb := of_decide_eq_true h
  rw [toNat_toLower, if_neg (by omega)]

theorem toLower_toLower (c : Char) :
    Char.toLower (Char.toLower c) = Char.toLower c := by
  apply charToNat_inj
  simp only [toNat_toLower]
  split_ifs <;> omega

/-! ## List-level lemmas: strip, contains, join -/

theorem lowerL_stripL (s : List Char) : lowerL (stripL s) = stripL (lowerL s) := by
  have he : (isSpaceB ∘ Char.toLower) = isSpaceB := funext isSpaceB_toLower
  simp only [lowerL, stripL, List.dropWhile_map, he, ← List.map_reverse]

theorem startsWithL_iff {w s : List Char} :
    startsWithL w s = true ↔ ∃ t, s = w ++ t := by
  induction w generalizing s with
  | nil =>
      simp only [startsWithL, List.nil_append, true_iff]
      exact ⟨s, rfl⟩
  | cons c cs ih =>
      cases s with
      | nil =>
          simp only [startsWithL, List.cons_append]
          constructor
          · intro h
            cases h
          · rintro ⟨t, ht⟩
            cases ht
      | cons x xs =>
          simp only [startsWithL, Bool.and_eq_true, decide_eq_true_eq, ih,
            List.cons_append, List.cons.injEq]
          constructor
          · rintro ⟨rfl, t, rfl⟩
            exact ⟨t, rfl, rfl⟩
          · rintro ⟨t, rfl, rfl⟩
            exact ⟨rfl, t, rfl⟩

theorem containsSub_iff {w s : List Char} :
    containsSub w s = true ↔ ∃ a b, s = a ++ w ++ b := by
  induction s with
  | nil =>
      simp only [containsSub, startsWithL_iff]
      constructor
      · rintro ⟨t, ht⟩
        exact ⟨[], t, by simpa using ht⟩
      · rintro ⟨a, b, hab⟩
        rcases List.append_eq_nil.mp (List.append_eq_nil.mp hab.symm).1 with ⟨rfl, rfl⟩
        exact ⟨b, hab⟩
  | cons c t ih =>
      simp only [containsSub, Bool.or_eq_true, startsWithL_iff, ih]
      constructor
      · rintro (⟨u, hu⟩ | ⟨a, b, hab⟩)
        · exact ⟨[], u, by simpa using hu⟩
        · exact ⟨c :: a, b, by simp [hab]⟩
      · rintro ⟨a, b, hab⟩
        cases a with
        | nil => exact Or.inl ⟨b, by simpa using hab⟩
        | cons a0 as =>
            simp only [List.cons_append, List.cons.injEq] at hab
            exact Or.inr ⟨as, b, hab.2⟩

/-! ## Generic lemmas about the matcher -/

theorem mem_digitChars {c : Char} (h : isDigitB c = true) : c ∈ digitChars := by
  have hb : 48 ≤ c.toNat ∧ c.toNat ≤ 57 := of_decide_eq_true h
  have h10 : c.toNat = 48 ∨ c.toNat = 49 ∨ c.toNat = 50 ∨ c.toNat = 51 ∨ c.toNat = 52 ∨
      c.toNat = 53 ∨ c.toNat = 54 ∨ c.toNat = 55 ∨ c.toNat = 56 ∨ c.toNat = 57 := by omega
  rcases h10 with h0|h0|h0|h0|h0|h0|h0|h0|h0|h0
  · have hc : c = '0' := charToNat_inj (by rw [h0]; decide)
    subst hc; decide
  · have hc : c = '1' := charToNat_inj (by rw [h0]; decide)
    subst hc; decide
  · have hc : c = '2' := charToNat_inj (by rw [h0]; decide)
    subst hc; decide
  · have hc : c = '3' := charToNat_inj (by rw [h0]; decide)
    subst hc; decide
  · have hc : c = '4' := charToNat_inj (by rw [h0]; decide)
    subst hc; decide
  · have hc : c = '5' := charToNat_inj (by rw [h0]; decide)
    subst hc; decide
  · have hc : c = '6' := charToNat_inj (by rw [h0]; decide)
    subst hc; decide
  · have hc : c = '7' := charToNat_inj (by rw [h0]; decide)
    subst hc; decide
  · have hc : c = '8' := charToNat_inj (by rw [h0]; decide)
    subst hc; decide
  · have hc : c = '9' := charToNat_inj (by rw [h0]; decide)
    subst hc; decide

theorem mem_dropsDesc {s : List Char} {e : List Char × Caps} :
    ∀ {n : Nat}, e ∈ dropsDesc s n → ∃ j, j ≤ n ∧ e = (s.drop j, [])
  | 0, h => by
      simp only [dropsDesc, List.mem_singleton] at h
      exact ⟨0, Nat.le_refl 0, by simpa using h⟩
  | n+1, h => by
      simp only [dropsDesc, List.mem_cons] at h
      rcases h with h | h
      · exact ⟨n+1, Nat.le_refl _, h⟩
      · obtain ⟨j, hj, he⟩ := mem_dropsDesc h
        exact ⟨j, Nat.le_succ_of_le hj, he⟩

theorem mem_dropsDescPos {s : List Char} {e : List Char × Caps} :
    ∀ {n : Nat}, e ∈ dropsDescPos s n → ∃ j, 1 ≤ j ∧ j ≤ n ∧ e = (s.drop j, [])
  | 0, h => by simp [dropsDescPos] at h
  | n+1, h => by
      simp only [dropsDescPos, List.mem_cons] at h
      rcases h with h | h
      · exact ⟨n+1, Nat.le_add_left 1 n, Nat.le_refl _, h⟩
      · obtain ⟨j, hj1, hj, he⟩ := mem_dropsDescPos h
        exact ⟨j, hj1, Nat.le_succ_of_le hj, he⟩

theorem matchAll_residual : ∀ {r : RE} {s : List Char} {e : List Char × Caps},
    e ∈ matchAll r s → ∃ a, s = a ++ e.1
  | .eps, s, e, h => by
      simp only [matchAll, List.mem_singleton] at h
      exact ⟨[], by simp [h]⟩
  | .cls p, [], e, h => by simp [matchAll] at h
  | .cls p, c :: t, e, h => by
      simp only [matchAll] at h
      split at h
      · simp only [List.mem_singleton] at h
        exact ⟨[c], by simp [h]⟩
      · simp at h
  | .seq a b, s, e, h => by
      simp only [matchAll, List.mem_flatMap, List.mem_map] at h
      obtain ⟨ra, hra, rb, hrb, he⟩ := h
      obtain ⟨u, hu⟩ := matchAll_residual hra
      obtain ⟨v, hv⟩ := matchAll_residual hrb
      exact ⟨u ++ v, by rw [hu, hv, ← he] ; simp⟩
  | .alt a b, s, e, h => by
      rcases List.mem_append.mp h with h | h
      · exact matchAll_residual h
      · exact matchAll_residual h
  | .opt a, s, e, h => by
      rcases List.mem_append.mp h with h | h
      · exact matchAll_residual h
      · simp only [List.mem_singleton] at h
        exact ⟨[], by simp [h]⟩
  | .starCls p, s, e, h => by
      obtain ⟨j, _, he⟩ := mem_dropsDesc h
      exact ⟨s.take j, by rw [he] ; simp⟩
  | .plusCls p, s, e, h => by
      obtain ⟨j, _, _, he⟩ := mem_dropsDescPos h
      exact ⟨s.take j, by rw [he] ; simp⟩
  | .group a, s, e, h => by
      simp only [matchAll, List.mem_map] at h
      obtain ⟨ra, hra, he⟩ := h
      obtain ⟨u, hu⟩ := matchAll_residual hra
      exact ⟨u, by rw [← he] ; simpa using hu⟩

theorem matchAll_nil_of_not_nullable : ∀ {r : RE}, nullable r = false →
    matchAll r [] = []
  | .eps, h => by simp [nullable] at h
  | .cls p, _ => by simp [matchAll]
  | .seq a b, h => by
      simp only [nullable, Bool.and_eq_false_iff] at h
      rcases h with h | h
      · simp [matchAll, matchAll_nil_of_not_nullable h]
      · apply List.eq_nil_iff_forall_not_mem.mpr
        intro e he
        simp only [matchAll, List.mem_flatMap, List.mem_map] at he
        obtain ⟨ra, hra, rb, hrb, _⟩ := he
        obtain ⟨u, hu⟩ := matchAll_residual hra
        have h1 : ra.1 = [] := by
          rcases List.append_eq_nil.mp hu.symm with ⟨_, h2⟩
          exact h2
        rw [h1, matchAll_nil_of_not_nullable h] at hrb
        exact absurd hrb (List.not_mem_nil rb)
  | .alt a b, h => by
      simp only [nullable, Bool.or_eq_false_iff] at h
      simp [matchAll, matchAll_nil_of_not_nullable h.1,
        matchAll_nil_of_not_nullable h.2]
  | .opt a, h => by simp [nullable] at h
  | .starCls p, h => by simp [nullable] at h
  | .plusCls p, _ => by simp [matchAll, List.takeWhile_nil, dropsDescPos]
  | .group a, h => by
      simp only [nullable] at h
      simp [matchAll, matchAll_nil_of_not_nullable h]

theorem matchAll_consumes : ∀ {r : RE} {s : List Char} {e : List Char × Caps},
    nullable r = false → e ∈ matchAll r s → e.1.length < s.length
  | .eps, _, _, h, _ => by simp [nullable] at h
  | .cls p, [], e, _, he => by simp [matchAll] at he
  | .cls p, c :: t, e, _, he => by
      simp only [matchAll] at he
      split at he
      · simp only [List.mem_singleton] at he
        simp [he]
      · simp at he
  | .seq a b, s, e, h, he => by
      simp only [nullable, Bool.and_eq_false_iff] at h
      simp only [matchAll, List.mem_flatMap, List.mem_map] at he
      obtain ⟨ra, hra, rb, hrb, hee⟩ := he
      have hres : e.1 = rb.1 := by rw [← hee]
      rcases h with h | h
      · have h1 : ra.1.length < s.length := matchAll_consumes h hra
        obtain ⟨v, hv⟩ := matchAll_residual hrb
        have h2 : rb.1.length ≤ ra.1.length := by
          rw [hv]; simp
        rw [hres]; omega
      · obtain ⟨u, hu⟩ := matchAll_residual hra
        have h1 : ra.1.length ≤ s.length := by rw [hu]; simp
        have h2 : rb.1.length < ra.1.length := matchAll_consumes h hrb
        rw [hres]; omega
  | .alt a b, s, e, h, he => by
      simp only [nullable, Bool.or_eq_false_iff] at h
      rcases List.mem_append.mp he with he | he
      · exact matchAll_consumes h.1 he
      · exact matchAll_consumes h.2 he
  | .opt a, _, _, h, _ => by simp [nullable] at h
  | .starCls p, _, _, h, _ => by simp [nullable] at h
  | .plusCls p, s, e, _, he => by
      obtain ⟨j, hj1, hj2, hee⟩ := mem_dropsDescPos he
      have hle : (s.takeWhile p).length ≤ s.length := by
        simpa using (List.takeWhile_sublist p).length_le
      have hs : 1 ≤ s.length := by omega
      rw [hee]
      simp only [List.length_drop]
      omega
  | .group a, s, e, h, he => by
      simp only [nullable] at h
      simp only [matchAll, List.mem_map] at he
      obtain ⟨ra, hra, hee⟩ := he
      have := matchAll_consumes h hra
      rw [← hee]
      simpa using this

theorem matchAll_stay : ∀ {r : RE} {c : Char} {t : List Char} {e : List Char × Caps},
    firstB r c = false → e ∈ matchAll r (c :: t) → e.1 = c :: t
  | .eps, c, t, e, _, he => by
      simp only [matchAll, List.mem_singleton] at he
      simp [he]
  | .cls p, c, t, e, hf, he => by
      simp only [firstB] at hf
      simp [matchAll, hf] at he
  | .seq a b, c, t, e, hf, he => by
      simp only [firstB, Bool.or_eq_false_iff, Bool.and_eq_false_iff] at hf
      obtain ⟨hfa, hnab⟩ := hf
      simp only [matchAll, List.mem_flatMap, List.mem_map] at he
      obtain ⟨ra, hra, rb, hrb, hee⟩ := he
      have h1 : ra.1 = c :: t := matchAll_stay hfa hra
      rcases hnab with hna | hfb
      · have := matchAll_consumes hna hra
        rw [h1] at this
        omega
      · rw [h1] at hrb
        have h2 : rb.1 = c :: t := matchAll_stay hfb hrb
        rw [← hee]
        exact h2
  | .alt a b, c, t, e, hf, he => by
      simp only [firstB, Bool.or_eq_false_iff] at hf
      rcases List.mem_append.mp he with he | he
      · exact matchAll_stay hf.1 he
      · exact matchAll_stay hf.2 he
  | .opt a, c, t, e, hf, he => by
      simp only [firstB] at hf
      rcases List.mem_append.mp he with he | he
      · exact matchAll_stay hf he
      · simp only [List.mem_singleton] at he
        simp [he]
  | .starCls p, c, t, e, hf, he => by
      simp only [firstB] at hf
      simp [matchAll, List.takeWhile_cons, hf] at he
      obtain ⟨j, hj, hee⟩ := mem_dropsDesc he
      have hj0 : j = 0 := Nat.le_zero.mp (by simpa using hj)
      rw [hee, hj0]
      rfl
  | .plusCls p, c, t, e, hf, he => by
      simp only [firstB] at hf
      simp [matchAll, List.takeWhile_cons, hf, dropsDescPos] at he
  | .group a, c, t, e, hf, he => by
      simp only [firstB] at hf
      simp only [matchAll, List.mem_map] at he
      obtain ⟨ra, hra, hee⟩ := he
      have h1 : ra.1 = c :: t := matchAll_stay hf hra
      rw [← hee]
      exact h1

theorem matchAll_empty_of {r : RE} {s : List Char} (hn : nullable r = false)
    (hf : ∀ c ∈ s, firstB r c = false) : matchAll r s = [] := by
  cases s with
  | nil => exact matchAll_nil_of_not_nullable hn
  | cons c t =>
      apply List.eq_nil_iff_forall_not_mem.mpr
      intro e he
      have h1 : e.1 = c :: t := matchAll_stay (hf c (List.mem_cons_self c t)) he
      have h2 := matchAll_consumes hn he
      rw [h1] at h2
      omega

theorem searchAll_none_of {r : RE} {s : List Char} (hn : nullable r = false)
    (hf : ∀ c ∈ s, firstB r c = false) : searchAll r s = none := by
  induction s with
  | nil => simp [searchAll, matchAll_nil_of_not_nullable hn]
  | cons c t ih =>
      have h1 : matchAll r (c :: t) = [] := matchAll_empty_of hn hf
      simp only [searchAll, h1]
      exact ih (fun x hx => hf x (List.mem_cons_of_mem c hx))

theorem searchAll_ne_none_append {r : RE} {u : List Char} (h : matchAll r u ≠ [])
    (a : List Char) : searchAll r (a ++ u) ≠ none := by
  induction a with
  | nil =>
      cases u with
      | nil =>
          simp only [List.nil_append, searchAll]
          cases hm : matchAll r [] with
          | nil => exact absurd hm h
          | cons x xs => simp
      | cons c t =>
          simp only [List.nil_append, searchAll]
          cases hm : matchAll r (c :: t) with
          | nil => exact absurd hm h
          | cons x xs => simp
  | cons a0 as ih =>
      simp only [List.cons_append, searchAll]
      cases hm : matchAll r (a0 :: (as ++ u)) with
      | nil => exact ih
      | cons x xs => simp

theorem flatMap_eq_nil_of {α β : Type} {l : List α} {f : α → List β}
    (h : ∀ a ∈ l, f a = []) : l.flatMap f = [] := by
  induction l with
  | nil => rfl
  | cons x xs ih =>
      simp only [List.flatMap_cons, h x (List.mem_cons_self x xs), List.nil_append]
      exact ih (fun a ha => h a (List.mem_cons_of_mem x ha))

theorem matchAll_strR_append (w t : List Char) :
    matchAll (strR w) (w ++ t) = [(t, [])] := by
  induction w with
  | nil => simp [strR, matchAll]
  | cons c cs ih =>
      simp [strR, matchAll, litChar, ih]

theorem matchAll_strCIR_append {u w : List Char} (h : lowerL u = lowerL w) (t : List Char) :
    matchAll (strCIR w) (u ++ t) = [(t, [])] := by
  induction w generalizing u with
  | nil =>
      have hu : u = [] := by
        have := congrArg List.length h
        simpa [lowerL] using this
      subst hu
      simp [strCIR, matchAll]
  | cons c cs ih =>
      cases u with
      | nil =>
          have := congrArg List.length h
          simp [lowerL] at this
      | cons x xs =>
          simp only [lowerL, List.map_cons, List.cons.injEq] at h
          have hx : (Char.toLower x).toNat = (Char.toLower c).toNat := by rw [h.1]
          have hxs : lowerL xs = lowerL cs := h.2
          simp [strCIR, matchAll, litCI, hx, ih hxs]

theorem matchAll_strCIR_entry : ∀ {w s : List Char} {e : List Char × Caps},
    e ∈ matchAll (strCIR w) s → ∃ u, s = u ++ e.1 ∧ lowerL u = lowerL w ∧ e.2 = []
  | [], s, e, h => by
      simp only [strCIR, matchAll, List.mem_singleton] at h
      exact ⟨[], by simp [h], rfl, by simp [h]⟩
  | c :: cs, s, e, h => by
      cases s with
      | nil =>
          rw [show strCIR (c :: cs) = .seq (litCI c) (strCIR cs) from rfl,
            matchAll_nil_of_not_nullable (by simp [nullable, litCI])] at h
          exact absurd h (List.not_mem_nil e)
      | cons x xs =>
          simp only [strCIR, matchAll, litCI, List.mem_flatMap, List.mem_map] at h
          obtain ⟨ra, hra, rb, hrb, he⟩ := h
          by_cases hx : (Char.toLower x).toNat = (Char.toLower c).toNat
          · rw [if_pos (decide_eq_true hx)] at hra
            simp only [List.mem_singleton] at hra
            subst hra
            obtain ⟨u, hu, hlu, hc⟩ := matchAll_strCIR_entry hrb
            refine ⟨x :: u, ?_, ?_, ?_⟩
            · rw [← he]
              simp only [List.cons_append, List.cons.injEq, true_and]
              simpa using hu
            · simp only [lowerL, List.map_cons]
              rw [charToNat_inj hx]
              simp only [lowerL] at hlu
              rw [hlu]
            · rw [← he]
              simpa using hc
          · rw [if_neg (fun hcon => hx (of_decide_eq_true hcon))] at hra
            exact absurd hra (List.not_mem_nil ra)

theorem matchAll_caps : ∀ {r : RE} {s : List Char} {e : List Char × Caps}
    {cap : List Char}, e ∈ matchAll r s → cap ∈ e.2 → ∃ a b, s = a ++ cap ++ b
  | .eps, s, e, cap, h, hc => by
      simp only [matchAll, List.mem_singleton] at h
      rw [h] at hc
      simp at hc
  | .cls p, [], e, cap, h, _ => by simp [matchAll] at h
  | .cls p, c :: t, e, cap, h, hc => by
      simp only [matchAll] at h
      split at h
      · simp only [List.mem_singleton] at h
        rw [h] at hc
        simp at hc
      · simp at h
  | .seq a b, s, e, cap, h, hc => by
      simp only [matchAll, List.mem_flatMap, List.mem_map] at h
      obtain ⟨ra, hra, rb, hrb, he⟩ := h
      rw [← he] at hc
      simp only [List.mem_append] at hc
      rcases hc with hc | hc
      · exact matchAll_caps hra hc
      · obtain ⟨u, hu⟩ := matchAll_residual hra
        obtain ⟨x, y, hxy⟩ := matchAll_caps hrb hc
        exact ⟨u ++ x, y, by rw [hu, hxy]; simp⟩
  | .alt a b, s, e, cap, h, hc => by
      rcases List.mem_append.mp h with h | h
      · exact matchAll_caps h hc
      · exact matchAll_caps h hc
  | .opt a, s, e, cap, h, hc => by
      rcases List.mem_append.mp h with h | h
      · exact matchAll_caps h hc
      · simp only [List.mem_singleton] at h
        rw [h] at hc
        simp at hc
  | .starCls p, s, e, cap, h, hc => by
      obtain ⟨j, _, he⟩ := mem_dropsDesc h
      rw [he] at hc
      simp at hc
  | .plusCls p, s, e, cap, h, hc => by
      obtain ⟨j, _, _, he⟩ := mem_dropsDescPos h
      rw [he] at hc
      simp at hc
  | .group a, s, e, cap, h, hc => by
      simp only [matchAll, List.mem_map] at h
      obtain ⟨ra, hra, he⟩ := h
      rw [← he] at hc
      simp only [List.mem_append, List.mem_singleton] at hc
      rcases hc with hc | hc
      · exact matchAll_caps hra hc
      · obtain ⟨u, hu⟩ := matchAll_residual hra
        refine ⟨[], s.drop (s.length - ra.1.length), ?_⟩
        rw [hc]
        simp

theorem searchAll_some_ex {r : RE} : ∀ {s : List Char} {caps : Caps},
    searchAll r s = some caps →
    ∃ a u rest, s = a ++ u ∧ (rest, caps) ∈ matchAll r u
  | [], caps, h => by
      rw [searchAll] at h
      obtain ⟨ra, hra, he⟩ := Option.map_eq_some'.mp h
      exact ⟨[], [], ra.1, rfl, by
        have := List.mem_of_mem_head? hra
        rw [← he]
        simpa using this⟩
  | c :: t, caps, h => by
      rw [searchAll] at h
      cases hm : matchAll r (c :: t) with
      | cons ra tail =>
          rw [hm] at h
          simp only [Option.some.injEq] at h
          exact ⟨[], c :: t, ra.1, rfl, by
            rw [hm, ← h]
            exact List.mem_cons_self _ _⟩
      | nil =>
          rw [hm] at h
          obtain ⟨a, u, rest, hau, hmem⟩ := searchAll_some_ex h
          exact ⟨c :: a, u, rest, by rw [hau]; rfl, hmem⟩

theorem containsSub_dropWhile {w s : List Char} (hne : w ≠ [])
    (hh : isSpaceB (w.headD ' ') = false) (h : containsSub w s = true) :
    containsSub w (s.dropWhile isSpaceB) = true := by
  induction s with
  | nil => simpa [List.dropWhile_nil] using h
  | cons c t ih =>
      by_cases hc : isSpaceB c = true
      · rw [List.dropWhile_cons_of_pos hc]
        apply ih
        simp only [containsSub, Bool.or_eq_true] at h
        rcases h with h | h
        · exfalso
          cases w with
          | nil => exact hne rfl
          | cons w0 ws =>
              simp only [startsWithL, Bool.and_eq_true, decide_eq_true_eq] at h
              rw [List.headD_cons] at hh
              rw [h.1] at hh
              rw [hh] at hc
              cases hc
        · exact h
      · rwa [List.dropWhile_cons_of_neg hc]

theorem containsSub_reverse {w s : List Char} :
    containsSub w.reverse s.reverse = containsSub w s := by
  rcases hb : containsSub w s with _ | _
  · rcases hr : containsSub w.reverse s.reverse with _ | _
    · rfl
    · exfalso
      obtain ⟨a, b, hab⟩ := containsSub_iff.mp hr
      have : s = b.reverse ++ w ++ a.reverse := by
        have := congrArg List.reverse hab
        simpa [List.append_assoc] using this
      rw [containsSub_iff.mpr ⟨b.reverse, a.reverse, this⟩] at hb
      cases hb
  · obtain ⟨a, b, hab⟩ := containsSub_iff.mp hb
    apply containsSub_iff.mpr
    refine ⟨b.reverse, a.reverse, ?_⟩
    rw [hab]
    simp [List.append_assoc]

theorem containsSub_stripL {w s : List Char} (hne : w ≠ [])
    (hh : isSpaceB (w.headD ' ') = false)
    (hl : isSpaceB (w.reverse.headD ' ') = false)
    (h : containsSub w s = true) : containsSub w (stripL s) = true := by
  have h1 : containsSub w (s.dropWhile isSpaceB) = true :=
    containsSub_dropWhile hne hh h
  have h2 : containsSub w.reverse (s.dropWhile isSpaceB).reverse = true := by
    rwa [containsSub_reverse]
  have hne2 : w.reverse ≠ [] := by
    intro hcon
    exact hne (by simpa using congrArg List.reverse hcon)
  have h3 : containsSub w.reverse
      ((s.dropWhile isSpaceB).reverse.dropWhile isSpaceB) = true :=
    containsSub_dropWhile hne2 hl h2
  have h4 := containsSub_reverse (w := w.reverse)
      (s := (s.dropWhile isSpaceB).reverse.dropWhile isSpaceB)
  rw [List.reverse_reverse] at h4
  rw [stripL, h4]
  exact h3

theorem stripL_decomp (s : List Char) : ∃ a b, s = a ++ stripL s ++ b := by
  have h1 : s = s.takeWhile isSpaceB ++ s.dropWhile isSpaceB :=
    (List.takeWhile_append_dropWhile ..).symm
  set u := s.dropWhile isSpaceB with hu
  have h2 : u.reverse = u.reverse.takeWhile isSpaceB ++ u.reverse.dropWhile isSpaceB :=
    (List.takeWhile_append_dropWhile ..).symm
  have h3 : u = (u.reverse.dropWhile isSpaceB).reverse ++
      (u.reverse.takeWhile isSpaceB).reverse := by
    conv_lhs => rw [← List.reverse_reverse u, h2]
    rw [List.reverse_append]
  refine ⟨s.takeWhile isSpaceB, (u.reverse.takeWhile isSpaceB).reverse, ?_⟩
  rw [stripL, ← hu]
  calc s = s.takeWhile isSpaceB ++ u := h1
    _ = s.takeWhile isSpaceB ++ ((u.reverse.dropWhile isSpaceB).reverse ++
        (u.reverse.takeWhile isSpaceB).reverse) := by rw [← h3]
    _ = _ := by rw [List.append_assoc]

/-! ## Lemmas about the rule loops of `_parse_intent` -/

theorem problemLoop_eq_none {ql : List Char} : ∀ {ps : List RE},
    (∀ p ∈ ps, searchAll p ql = none) → problemLoop ql ps = none
  | [], _ => rfl
  | p :: ps, h => by
      rw [problemLoop, if_neg (by simp [h p (List.mem_cons_self p ps)])]
      exact problemLoop_eq_none (fun x hx => h x (List.mem_cons_of_mem p hx))

theorem problemLoop_some {ql : List Char} : ∀ {ps : List RE} {r},
    problemLoop ql ps = some r →
    r = ("get_problems", [("time_range", time_range_of ql)])
  | [], r, h => by cases h
  | p :: ps, r, h => by
      rw [problemLoop] at h
      split at h
      · exact (Option.some.injEq .. ▸ h).symm
      · exact problemLoop_some h

theorem problemLoop_of_match {ql : List Char} : ∀ {ps : List RE},
    (∃ p ∈ ps, (searchAll p ql).isSome) →
    problemLoop ql ps = some ("get_problems", [("time_range", time_range_of ql)])
  | [], h => by
      obtain ⟨p, hp, _⟩ := h
      exact absurd hp (List.not_mem_nil p)
  | p :: ps, h => by
      rw [problemLoop]
      by_cases hp : (searchAll p ql).isSome
      · rw [if_pos hp]
      · rw [if_neg hp]
        apply problemLoop_of_match
        obtain ⟨p0, hp0, hs⟩ := h
        rcases List.mem_cons.mp hp0 with rfl | hp0
        · exact absurd hs hp
        · exact ⟨p0, hp0, hs⟩

theorem analyzeLoop_eq_none {q ql : List Char} : ∀ {ps : List RE},
    (∀ p ∈ ps, searchAll p ql = none) → analyzeLoop q ql ps = none
  | [], _ => rfl
  | p :: ps, h => by
      rw [analyzeLoop, if_neg (by simp [h p (List.mem_cons_self p ps)])]
      exact analyzeLoop_eq_none (fun x hx => h x (List.mem_cons_of_mem p hx))

theorem analyzeLoop_some {q ql : List Char} : ∀ {ps : List RE} {r},
    analyzeLoop q ql ps = some r →
    ∃ caps, searchAll rePIDfind q = some caps ∧
      r = ("analyze_problem", [("problem_id", upperL (caps.headD []))])
  | [], r, h => by cases h
  | p :: ps, r, h => by
      rw [analyzeLoop] at h
      split at h
      · split at h
        · next caps hpid =>
            simp only [Option.some.injEq] at h
            exact ⟨caps, hpid, h.symm⟩
        · next hpid =>
            obtain ⟨caps, hcaps, hr⟩ := analyzeLoop_some h
            rw [hpid] at hcaps
            exact absurd hcaps (by simp)
      · exact analyzeLoop_some h

theorem topologyLoop_eq_none {q ql : List Char} : ∀ {ps : List RE},
    (∀ p ∈ ps, searchAll p ql = none) → topologyLoop q ql ps = none
  | [], _ => rfl
  | p :: ps, h => by
      rw [topologyLoop]
      rw [h p (List.mem_cons_self p ps)]
      exact topologyLoop_eq_none (fun x hx => h x (List.mem_cons_of_mem p hx))

theorem topologyLoop_some {q ql : List Char} : ∀ {ps : List RE} {r},
    topologyLoop q ql ps = some r →
    ∃ p, p ∈ ps ∧ ∃ caps, searchAll p ql = some caps ∧
      ((∃ caps2, searchAll (relocRe (caps.headD [])) q = some caps2 ∧
          r = ("get_topology", [("service_name", caps2.headD [])])) ∨
        (searchAll (relocRe (caps.headD [])) q = none ∧
          r = ("get_topology", [("service_name", caps.headD [])])))
  | [], r, h => by cases h
  | p :: ps, r, h => by
      rw [topologyLoop] at h
      split at h
      · next caps hs =>
          split at h
          · next caps2 h2 =>
              simp only [Option.some.injEq] at h
              exact ⟨p, List.mem_cons_self p ps, caps, hs, Or.inl ⟨caps2, h2, h.symm⟩⟩
          · next h2 =>
              simp only [Option.some.injEq] at h
              exact ⟨p, List.mem_cons_self p ps, caps, hs, Or.inr ⟨h2, h.symm⟩⟩
      · next hs =>
          obtain ⟨p0, hp0, rest⟩ := topologyLoop_some h
          exact ⟨p0, List.mem_cons_of_mem p hp0, rest⟩

theorem healthLoop_eq_none {q : List Char} : ∀ {ps : List RE},
    (∀ p ∈ ps, searchAll p q = none) → healthLoop q ps = none
  | [], _ => rfl
  | p :: ps, h => by
      rw [healthLoop]
      rw [h p (List.mem_cons_self p ps)]
      exact healthLoop_eq_none (fun x hx => h x (List.mem_cons_of_mem p hx))

theorem healthLoop_some {q : List Char} : ∀ {ps : List RE} {r},
    healthLoop q ps = some r →
    ∃ p, p ∈ ps ∧ ∃ caps, searchAll p q = some caps ∧
      r = ("get_health", [("entity_id", upperL (caps.headD []))])
  | [], r, h => by cases h
  | p :: ps, r, h => by
      rw [healthLoop] at h
      split at h
      · next caps hs =>
          simp only [Option.some.injEq] at h
          exact ⟨p, List.mem_cons_self p ps, caps, hs, h.symm⟩
      · next hs =>
          obtain ⟨p0, hp0, rest⟩ := healthLoop_some h
          exact ⟨p0, List.mem_cons_of_mem p hp0, rest⟩

theorem incidentLoop_eq_none {q ql : List Char} : ∀ {ps : List RE},
    (∀ p ∈ ps, searchAll p ql = none) → incidentLoop q ql ps = none
  | [], _ => rfl
  | p :: ps, h => by
      rw [incidentLoop, if_neg (by simp [h p (List.mem_cons_self p ps)])]
      exact incidentLoop_eq_none (fun x hx => h x (List.mem_cons_of_mem p hx))

theorem incidentLoop_some {q ql : List Char} : ∀ {ps : List RE} {r},
    incidentLoop q ql ps = some r →
    ∃ caps, searchAll rePIDfind q = some caps ∧
      r = ("create_incident", [("problem_id", upperL (caps.headD []))])
  | [], r, h => by cases h
  | p :: ps, r, h => by
      rw [incidentLoop] at h
      split at h
      · split at h
        · next caps hpid =>
            simp only [Option.some.injEq] at h
            exact ⟨caps, hpid, h.symm⟩
        · next hpid =>
            obtain ⟨caps, hcaps, hr⟩ := incidentLoop_some h
            rw [hpid] at hcaps
            exact absurd hcaps (by simp)
      · exact incidentLoop_some h

/-! ## Stage lemmas for `parse_intent` -/

theorem parse_intent_of_problem {q : List Char} {r}
    (h : problemLoop (stripL (lowerL q)) problem_patterns = some r) :
    parse_intent q = r := by
  simp only [parse_intent, h]

theorem parse_intent_of_analyze {q : List Char} {r}
    (h1 : problemLoop (stripL (lowerL q)) problem_patterns = none)
    (h2 : analyzeLoop q (stripL (lowerL q)) analyze_patterns = some r) :
    parse_intent q = r := by
  simp only [parse_intent, h1, h2]

theorem parse_intent_of_standalone {q : List Char}
    (h1 : problemLoop (stripL (lowerL q)) problem_patterns = none)
    (h2 : analyzeLoop q (stripL (lowerL q)) analyze_patterns = none)
    (h3 : (matchFullCaps reStandalone (stripL q)).isSome = true) :
    parse_intent q = ("analyze_problem", [("problem_id", upperL (stripL q))]) := by
  simp only [parse_intent, h1, h2, h3, if_true]

theorem parse_intent_of_topology {q : List Char} {r}
    (h1 : problemLoop (stripL (lowerL q)) problem_patterns = none)
    (h2 : analyzeLoop q (stripL (lowerL q)) analyze_patterns = none)
    (h3 : matchFullCaps reStandalone (stripL q) = none)
    (h4 : topologyLoop q (stripL (lowerL q)) topology_patterns = some r) :
    parse_intent q = r := by
  simp only [parse_intent, h1, h2, h3, h4, Option.isSome_none, Bool.false_eq_true,
    if_false]

theorem parse_intent_of_health {q : List Char} {r}
    (h1 : problemLoop (stripL (lowerL q)) problem_patterns = none)
    (h2 : analyzeLoop q (stripL (lowerL q)) analyze_patterns = none)
    (h3 : matchFullCaps reStandalone (stripL q) = none)
    (h4 : topologyLoop q (stripL (lowerL q)) topology_patterns = none)
    (h5 : healthLoop q health_patterns = some r) :
    parse_intent q = r := by
  simp only [parse_intent, h1, h2, h3, h4, h5, Option.isSome_none,
    Bool.false_eq_true, if_false]

theorem parse_intent_fallback {q : List Char}
    (h1 : problemLoop (stripL (lowerL q)) problem_patterns = none)
    (h2 : analyzeLoop q (stripL (lowerL q)) analyze_patterns = none)
    (h3 : matchFullCaps reStandalone (stripL q) = none)
    (h4 : topologyLoop q (stripL (lowerL q)) topology_patterns = none)
    (h5 : healthLoop q health_patterns = none)
    (h6 : incidentLoop q (stripL (lowerL q)) incident_patterns = none) :
    parse_intent q = ("query", [("question", q)]) := by
  simp only [parse_intent, h1, h2, h3, h4, h5, h6, Option.isSome_none,
    Bool.false_eq_true, if_false]

theorem parse_action_mem (q : List Char) : (parse_intent q).1 ∈ sixActions := by
  simp only [parse_intent]
  split
  · next r hr =>
      rw [problemLoop_some hr]
      show "get_problems" ∈ sixActions
      decide
  · split
    · next r hr =>
        obtain ⟨caps, _, hre⟩ := analyzeLoop_some hr
        rw [hre]
        show "analyze_problem" ∈ sixActions
        decide
    · split
      · show "analyze_problem" ∈ sixActions
        decide
      · split
        · next r hr =>
            obtain ⟨p, _, caps, _, hd⟩ := topologyLoop_some hr
            rcases hd with ⟨caps2, _, hre⟩ | ⟨_, hre⟩ <;> rw [hre] <;>
              · show "get_topology" ∈ sixActions
                decide
        · split
          · next r hr =>
              obtain ⟨p, _, caps, _, hre⟩ := healthLoop_some hr
              rw [hre]
              show "get_health" ∈ sixActions
              decide
          · split
            · next r hr =>
                obtain ⟨caps, _, hre⟩ := incidentLoop_some hr
                rw [hre]
                show "create_incident" ∈ sixActions
                decide
            · show "query" ∈ sixActions
              decide

/-! ## Small auxiliary lemmas for the claims -/

theorem containsSub_nil (s : List Char) : containsSub [] s = true := by
  cases s with
  | nil => rfl
  | cons c t => rfl

theorem startsWithL_append (w t : List Char) : startsWithL w (w ++ t) = true := by
  induction w with
  | nil => rfl
  | cons c cs ih => simp [startsWithL, ih]

theorem joinNL_cons_ne {xs : List (List Char)} (x : List Char) (h : xs ≠ []) :
    joinNL (x :: xs) = x ++ '\n' :: joinNL xs := by
  cases xs with
  | nil => exact absurd rfl h
  | cons y ys => rfl

theorem joinNL_concat_last {l : List (List Char)} (x : List Char) (h : l ≠ []) :
    ∃ pre, joinNL (l ++ [x]) = pre ++ '\n' :: x := by
  induction l with
  | nil => exact absurd rfl h
  | cons a as ih =>
      cases as with
      | nil => exact ⟨a, rfl⟩
      | cons b bs =>
          obtain ⟨pre, hpre⟩ := ih (by simp)
          refine ⟨a ++ '\n' :: pre, ?_⟩
          rw [List.cons_append, joinNL_cons_ne _ (by simp), hpre]
          simp

theorem startsWithL_joinNL_head (w t : List Char) (xs : List (List Char)) :
    startsWithL w (joinNL ((w ++ t) :: xs)) = true := by
  cases xs with
  | nil => exact startsWithL_append w t
  | cons y ys =>
      rw [joinNL_cons_ne _ (by simp), List.append_assoc]
      exact startsWithL_append w _

/-! ## Claim C3 -/

/-- Claim C3: the spec (and the executor's own help text) says the input
`"list issues from the last 7 days"` is classified as `get_problems`
with time range `"7d"`.  The code disagrees: no problem-listing pattern
accepts the word `issues` without a preceding `any`, so the input falls
through every rule to the natural-language fallback.  This theorem
records what the code actually does on that input. -/
theorem c3_list_issues_falls_through :
    parse_intent ("list issues from the last 7 days".toList) =
      ("query", [("question", "list issues from the last 7 days".toList)]) ∧
    searchAll reTime (stripL (lowerL ("list issues from the last 7 days".toList))) =
      some ["7".toList, "d".toList] := by
  constructor
  · decide
  · decide

/-! ## Claim C2 -/

/-- Claim C2: the classifier always returns exactly one pair whose
action is one of the six tags, and when no rule-1-to-5 pattern matches
it returns the `query` action carrying the verbatim input as
`question`. -/
theorem c2_total_enumeration_and_fallback :
    (∀ q : List Char, (parse_intent q).1 ∈ sixActions) ∧
    (∀ q : List Char, noRuleMatchesB q = true →
      parse_intent q = ("query", [("question", q)])) := by
  refine ⟨parse_action_mem, ?_⟩
  intro q h
  simp only [noRuleMatchesB, Bool.and_eq_true, List.all_eq_true,
    Option.isNone_iff_eq_none] at h
  obtain ⟨⟨⟨⟨⟨h1, h2⟩, h3⟩, h4⟩, h5⟩, h6⟩ := h
  exact parse_intent_fallback (problemLoop_eq_none h1) (analyzeLoop_eq_none h2)
    h3 (topologyLoop_eq_none h4) (healthLoop_eq_none h5) (incidentLoop_eq_none h6)

theorem c2_witness :
    noRuleMatchesB ("hello".toList) = true ∧
    parse_intent ("hello".toList) = ("query", [("question", "hello".toList)]) :=
  ⟨by decide, c2_total_enumeration_and_fallback.2 _ (by decide)⟩

/-! ## Claim C4 -/

/-- Claim C4: whenever a problem-listing pattern matches, the action is
`get_problems` and `time_range` is computed by the `(last|past) N unit`
search: on a hit it is the digit string concatenated with the first
letter of the matched unit word, otherwise `"24h"`; in particular
`"show open problems"` yields `time_range = "24h"`. -/
theorem c4_problem_listing_time_range :
    (∀ q : List Char,
      (problem_patterns.any fun p =>
        (searchAll p (stripL (lowerL q))).isSome) = true →
      parse_intent q =
        ("get_problems", [("time_range", time_range_of (stripL (lowerL q)))])) ∧
    (∀ s caps, searchAll reTime s = some caps →
      time_range_of s = caps.headD [] ++ (caps.getD 1 []).take 1) ∧
    (∀ s, searchAll reTime s = none → time_range_of s = "24h".toList) ∧
    parse_intent ("show open problems".toList) =
      ("get_problems", [("time_range", "24h".toList)]) := by
  refine ⟨?_, ?_, ?_, by decide⟩
  · intro q h
    obtain ⟨p, hp, hs⟩ := List.any_eq_true.mp h
    exact parse_intent_of_problem (problemLoop_of_match ⟨p, hp, hs⟩)
  · intro s caps h
    simp [time_range_of, h]
  · intro s h
    simp [time_range_of, h]

theorem c4_witness :
    (problem_patterns.any fun p =>
      (searchAll p (stripL (lowerL ("show problems from the past 3 days".toList)))).isSome) =
        true ∧
    parse_intent ("show problems from the past 3 days".toList) =
      ("get_problems", [("time_range", "3d".toList)]) := by
  refine ⟨by decide, ?_⟩
  have h := c4_problem_listing_time_range.1 ("show problems from the past 3 days".toList)
    (by decide)
  rw [h]
  decide

/-! ## Claim C6 -/

/-- Claim C6: a raised exception from the dispatched skill never
propagates out of `execute`; the reply is the plain-text error marker
naming the dispatched action and carrying `str(e)`. -/
theorem c6_dispatch_error_boundary (s : Skills) (q e : List Char)
    (hne : q.isEmpty = false)
    (herr : dispatch s (parse_intent q).1 (parse_intent q).2 q = .error e) :
    execute s q =
      "❌ Error executing ".toList ++ (parse_intent q).1.toList ++ ": ".toList ++ e := by
  simp only [execute, hne, Bool.false_eq_true, if_false, herr, errorReply]

theorem c6_witness :
    execute failingSkills ("hello".toList) =
      "❌ Error executing ".toList ++ "query".toList ++ ": ".toList ++ "boom".toList := by
  have h := c6_dispatch_error_boundary failingSkills ("hello".toList) ("boom".toList)
    (by decide) (by rfl)
  rw [h]
  decide

/-! ## Claim C8 -/

/-- Claim C8: when the text extracted from the request is empty, the
executor replies with the help message; the reply does not depend on the
skills oracle (no skill is invoked), and the classifier is never
consulted. -/
theorem c8_empty_query_help (s : Skills) (parts : List (Option (List Char)))
    (h : extract_query parts = []) :
    executeOnContext s parts = get_help_message := by
  simp [executeOnContext, h, execute]

theorem c8_witness :
    extract_query [none, some ([] : List Char)] = [] ∧
    executeOnContext failingSkills [none, some []] = get_help_message :=
  ⟨by decide, c8_empty_query_help failingSkills _ (by decide)⟩

/-! ## Claim C9 -/

theorem reProblem2_match_s (b : List Char) :
    matchAll reProblem2 ("what's wrong".toList ++ b) ≠ [] := by
  have hsplit : "what's wrong".toList ++ b =
      "what".toList ++ ("'s".toList ++ (" wrong".toList ++ b)) := rfl
  apply List.ne_nil_of_mem (a := (b, ([] : Caps)))
  rw [hsplit]
  show (b, ([] : Caps)) ∈ matchAll
    (.seq (strS "what") (.seq (.alt (strS "'s") (strS " is")) (strS " wrong"))) _
  apply List.mem_flatMap.mpr
  refine ⟨("'s".toList ++ (" wrong".toList ++ b), []), ?_, ?_⟩
  · rw [show strS "what" = strR "what".toList from rfl, matchAll_strR_append]
    exact List.mem_singleton.mpr rfl
  · apply List.mem_map.mpr
    refine ⟨(b, []), ?_, rfl⟩
    apply List.mem_flatMap.mpr
    refine ⟨(" wrong".toList ++ b, []), ?_, ?_⟩
    · show _ ∈ matchAll (strS "'s") _ ++ matchAll (strS " is") _
      apply List.mem_append_left
      rw [show strS "'s" = strR "'s".toList from rfl, matchAll_strR_append]
      exact List.mem_singleton.mpr rfl
    · apply List.mem_map.mpr
      refine ⟨(b, []), ?_, rfl⟩
      rw [show strS " wrong" = strR " wrong".toList from rfl, matchAll_strR_append]
      exact List.mem_singleton.mpr rfl

theorem reProblem2_match_is (b : List Char) :
    matchAll reProblem2 ("what is wrong".toList ++ b) ≠ [] := by
  have hsplit : "what is wrong".toList ++ b =
      "what".toList ++ (" is".toList ++ (" wrong".toList ++ b)) := rfl
  apply List.ne_nil_of_mem (a := (b, ([] : Caps)))
  rw [hsplit]
  show (b, ([] : Caps)) ∈ matchAll
    (.seq (strS "what") (.seq (.alt (strS "'s") (strS " is")) (strS " wrong"))) _
  apply List.mem_flatMap.mpr
  refine ⟨(" is".toList ++ (" wrong".toList ++ b), []), ?_, ?_⟩
  · rw [show strS "what" = strR "what".toList from rfl, matchAll_strR_append]
    exact List.mem_singleton.mpr rfl
  · apply List.mem_map.mpr
    refine ⟨(b, []), ?_, rfl⟩
    apply List.mem_flatMap.mpr
    refine ⟨(" wrong".toList ++ b, []), ?_, ?_⟩
    · show _ ∈ matchAll (strS "'s") _ ++ matchAll (strS " is") _
      apply List.mem_append_right
      rw [show strS " is" = strR " is".toList from rfl, matchAll_strR_append]
      exact List.mem_singleton.mpr rfl
    · apply List.mem_map.mpr
      refine ⟨(b, []), ?_, rfl⟩
      rw [show strS " wrong" = strR " wrong".toList from rfl, matchAll_strR_append]
      exact List.mem_singleton.mpr rfl

theorem problemLoop_isSome_head2 {ql : List Char}
    (h : searchAll reProblem2 ql ≠ none) :
    problemLoop ql problem_patterns =
      some ("get_problems", [("time_range", time_range_of ql)]) := by
  apply problemLoop_of_match
  exact ⟨reProblem2, List.Mem.tail _ (List.Mem.head _),
    Option.isSome_iff_ne_none.mpr h⟩

/-- Claim C9, amended: any input whose lower-cased form contains the
exact substring `what's wrong` or `what is wrong` (single space) is
classified `get_problems` even when it carries a problem id; the
`wrong with` branch of the analyze patterns is unreachable only for
those exact substrings, and still fires when the whitespace between the
words differs (see the counterexample). -/
theorem c9_whats_wrong_is_get_problems (q : List Char)
    (h : containsSub ("what's wrong".toList) (lowerL q) = true ∨
      containsSub ("what is wrong".toList) (lowerL q) = true) :
    (parse_intent q).1 = "get_problems" := by
  have hql : searchAll reProblem2 (stripL (lowerL q)) ≠ none := by
    rcases h with h | h
    · have hs : containsSub ("what's wrong".toList) (stripL (lowerL q)) = true :=
        containsSub_stripL (by decide) (by decide) (by decide) h
      obtain ⟨a, b, hab⟩ := containsSub_iff.mp hs
      rw [hab, List.append_assoc]
      exact searchAll_ne_none_append (reProblem2_match_s b) a
    · have hs : containsSub ("what is wrong".toList) (stripL (lowerL q)) = true :=
        containsSub_stripL (by decide) (by decide) (by decide) h
      obtain ⟨a, b, hab⟩ := containsSub_iff.mp hs
      rw [hab, List.append_assoc]
      exact searchAll_ne_none_append (reProblem2_match_is b) a
  rw [parse_intent_of_problem (problemLoop_isSome_head2 hql)]

/-- Claim C9, counterexample to the claim as stated: with two spaces
between `what's` and `wrong` the rule-1 pattern (which requires a
single literal space) does not fire, and the analyze pattern's
`wrong\s*with` branch does produce `analyze_problem`. -/
theorem c9_counterexample :
    parse_intent ("what's  wrong with P-123".toList) =
      ("analyze_problem", [("problem_id", "P-123".toList)]) := by
  decide

theorem c9_witness :
    containsSub ("what's wrong".toList)
      (lowerL ("What's wrong with P-123".toList)) = true ∧
    (parse_intent ("What's wrong with P-123".toList)).1 = "get_problems" :=
  ⟨by decide, c9_whats_wrong_is_get_problems _ (Or.inl (by decide))⟩

/-! ## Claim C10 -/

theorem ai_analyze_error (env : AnalyzeEnv) (prompt e : List Char)
    (h : env.generate_content prompt = .error e) :
    ai_analyze env prompt = "AI analysis unavailable: ".toList ++ e := by
  simp [ai_analyze, h]

theorem analysisReport_tail (env : AnalyzeEnv) (pid title status severity : List Char)
    (ev : List Evidence) (dep : List Deployment) (ai : List Char) :
    ∃ pre, analysisReport env pid title status severity ev dep ai =
      pre ++ '\n' :: ai := by
  simp only [analysisReport]
  rw [show ["\n---\n".toList, "## ü§ñ AI-Powered Analysis\n".toList, ai] =
      ["\n---\n".toList, "## ü§ñ AI-Powered Analysis\n".toList] ++ [ai] from rfl,
    ← List.append_assoc]
  exact joinNL_concat_last ai (by simp)

theorem analysisReport_head (env : AnalyzeEnv) (pid title status severity : List Char)
    (ev : List Evidence) (dep : List Deployment) (ai : List Char) :
    startsWithL ("# üîç Root Cause Analysis: ".toList)
      (analysisReport env pid title status severity ev dep ai) = true := by
  simp only [analysisReport]
  exact startsWithL_joinNL_head ("# üîç Root Cause Analysis: ".toList) title _

theorem analysisReport_not_err (env : AnalyzeEnv) (pid title status severity : List Char)
    (ev : List Evidence) (dep : List Deployment) (ai : List Char) :
    startsWithL ("‚ùå".toList)
      (analysisReport env pid title status severity ev dep ai) = false := by
  obtain ⟨t, ht⟩ := startsWithL_iff.mp
    (analysisReport_head env pid title status severity ev dep ai)
  rw [ht]
  rfl

/-- Claim C10: `_ai_analyze` never raises (it is total in the model)
and converts any generation failure into the fixed unavailability
string; `analyze_problem` then embeds that string as the final AI
section of an otherwise normally formatted report, which starts with
the analysis header and not with the error marker. -/
theorem c10_ai_failure_graceful :
    (∀ (env : AnalyzeEnv) (prompt e : List Char),
      env.generate_content prompt = .error e →
      ai_analyze env prompt = "AI analysis unavailable: ".toList ++ e) ∧
    (∀ (env : AnalyzeEnv) (pid e : List Char) (pd : ProblemDetails),
      (∀ p, env.generate_content p = .error e) →
      env.get_problem_details pid = .ok pd →
      (∃ pre, analyze_problem env pid =
        pre ++ '\n' :: ("AI analysis unavailable: ".toList ++ e)) ∧
      startsWithL ("# üîç Root Cause Analysis: ".toList)
        (analyze_problem env pid) = true ∧
      startsWithL ("‚ùå".toList) (analyze_problem env pid) = false) := by
  refine ⟨ai_analyze_error, ?_⟩
  intro env pid e pd hgen hok
  have hrew : analyze_problem env pid =
      analysisReport env pid (pd.title.getD ("Unknown Problem".toList))
        (pd.status.getD ("UNKNOWN".toList))
        (pd.severityLevel.getD ("UNKNOWN".toList))
        pd.evidence (fetchDeployments env pd)
        ("AI analysis unavailable: ".toList ++ e) := by
    simp only [analyze_problem, hok]
    rw [ai_analyze_error env _ e (hgen _)]
  rw [hrew]
  exact ⟨analysisReport_tail env pid _ _ _ _ _ _,
    analysisReport_head env pid _ _ _ _ _ _,
    analysisReport_not_err env pid _ _ _ _ _ _⟩

theorem c10_witness :
    (∃ pre, analyze_problem sampleEnv ("P-1".toList) =
      pre ++ '\n' :: ("AI analysis unavailable: ".toList ++ "quota".toList)) ∧
    startsWithL ("# üîç Root Cause Analysis: ".toList)
      (analyze_problem sampleEnv ("P-1".toList)) = true ∧
    startsWithL ("‚ùå".toList) (analyze_problem sampleEnv ("P-1".toList)) = false :=
  c10_ai_failure_graceful.2 sampleEnv ("P-1".toList) ("quota".toList) samplePD
    (fun _ => rfl) rfl

/-! ## Claim C7 -/

/-- Claim C7: when the earlier rules produce nothing and a health
pattern matches (searched in the original-case query), the result is
`get_health` with the matched identifier upper-cased; the identifier is
a substring of the original query; in particular `"Health of
HOST-ABC123"` yields entity id `HOST-ABC123`. -/
theorem c7_health_entity_id :
    parse_intent ("Health of HOST-ABC123".toList) =
      ("get_health", [("entity_id", "HOST-ABC123".toList)]) ∧
    (∀ (q : List Char) (r : String × Params),
      problemLoop (stripL (lowerL q)) problem_patterns = none →
      analyzeLoop q (stripL (lowerL q)) analyze_patterns = none →
      matchFullCaps reStandalone (stripL q) = none →
      topologyLoop q (stripL (lowerL q)) topology_patterns = none →
      healthLoop q health_patterns = some r →
      parse_intent q = r) ∧
    (∀ (q : List Char) (r : String × Params),
      healthLoop q health_patterns = some r →
      ∃ g, r = ("get_health", [("entity_id", upperL g)]) ∧
        containsSub g q = true) := by
  refine ⟨by decide, fun q r h1 h2 h3 h4 h5 =>
    parse_intent_of_health h1 h2 h3 h4 h5, ?_⟩
  intro q r h
  obtain ⟨p, hp, caps, hsearch, hre⟩ := healthLoop_some h
  refine ⟨caps.headD [], hre, ?_⟩
  cases caps with
  | nil => exact containsSub_nil q
  | cons c0 rest =>
      obtain ⟨a, u, restr, hau, hmem⟩ := searchAll_some_ex hsearch
      obtain ⟨x, y, hxy⟩ := matchAll_caps hmem (List.mem_cons_self c0 rest)
      apply containsSub_iff.mpr
      refine ⟨a ++ x, y, ?_⟩
      rw [hau, hxy]
      simp [List.append_assoc]

theorem c7_witness :
    healthLoop ("Health of HOST-ABC123".toList) health_patterns =
      some ("get_health", [("entity_id", "HOST-ABC123".toList)]) ∧
    parse_intent ("Health of HOST-ABC123".toList) =
      ("get_health", [("entity_id", "HOST-ABC123".toList)]) :=
  ⟨by decide, c7_health_entity_id.2.1 _ _ (by decide) (by decide) (by decide)
    (by decide) (by decide)⟩

/-! ## Claim C1 -/

theorem matchAll_seq (a b : RE) (s : List Char) :
    matchAll (.seq a b) s = (matchAll a s).flatMap
      (fun ra => (matchAll b ra.1).map (fun rb => (rb.1, ra.2 ++ rb.2))) := rfl

theorem matchAll_group (a : RE) (s : List Char) :
    matchAll (.group a) s = (matchAll a s).map
      (fun ra => (ra.1, ra.2 ++ [s.take (s.length - ra.1.length)])) := rfl

theorem matchAll_cls_true {p : Char → Bool} {c : Char} {t : List Char}
    (h : p c = true) : matchAll (.cls p) (c :: t) = [(t, [])] := by
  simp [matchAll, h]

theorem matchAll_cls_false {p : Char → Bool} {c : Char} {t : List Char}
    (h : p c = false) : matchAll (.cls p) (c :: t) = [] := by
  simp [matchAll, h]

theorem matchAll_quoteOpt_of {u : List Char} (h : ∀ c ∈ u, isQuoteB c = false) :
    matchAll quoteOpt u = [(u, [])] := by
  cases u with
  | nil => rfl
  | cons d t =>
      show matchAll (.cls isQuoteB) (d :: t) ++ [(d :: t, [])] = _
      rw [matchAll_cls_false (h d (List.mem_cons_self d t))]
      rfl

theorem matchAll_wsStar_of {u : List Char} (h : ∀ c ∈ u, isSpaceB c = false) :
    matchAll wsStar u = [(u, [])] := by
  cases u with
  | nil => rfl
  | cons d t =>
      show dropsDesc (d :: t) ((d :: t).takeWhile isSpaceB).length = _
      rw [show (d :: t).takeWhile isSpaceB = [] from by
        simp [List.takeWhile_cons, h d (List.mem_cons_self d t)]]
      rfl

theorem matchAll_rest2_digits {r : RE} (hn : nullable r = false)
    (hf : ∀ x ∈ digitChars, firstB r x = false)
    {u : List Char} (hu : ∀ c ∈ u, isDigitB c = true) :
    matchAll (.seq quoteOpt (.seq wsStar r)) u = [] := by
  have hq2 : matchAll quoteOpt u = [(u, [])] := matchAll_quoteOpt_of (fun c hc =>
    (by decide : ∀ x ∈ digitChars, isQuoteB x = false) c (mem_digitChars (hu c hc)))
  have hw2 : matchAll wsStar u = [(u, [])] := matchAll_wsStar_of (fun c hc =>
    (by decide : ∀ x ∈ digitChars, isSpaceB x = false) c (mem_digitChars (hu c hc)))
  have hs3 : matchAll r u = [] :=
    matchAll_empty_of hn (fun c hc => hf c (mem_digitChars (hu c hc)))
  rw [matchAll_seq, hq2]
  simp [matchAll_seq, hw2, hs3]

theorem matchAll_reAnalyze3_pdash {ds : List Char}
    (hds : ∀ c ∈ ds, isDigitB c = true) :
    matchAll reAnalyze3 ('p' :: '-' :: ds) = [] := by
  have hP : matchAll (litCI 'P') ('p' :: '-' :: ds) = [('-' :: ds, [])] :=
    matchAll_cls_true (by decide)
  have hD : matchAll (litCI '-') ('-' :: ds) = [(ds, [])] :=
    matchAll_cls_true (by decide)
  have hQ : matchAll quoteOpt ('p' :: '-' :: ds) = [('p' :: '-' :: ds, [])] := by
    show matchAll (.cls isQuoteB) ('p' :: '-' :: ds) ++ [('p' :: '-' :: ds, [])] = _
    rw [matchAll_cls_false (by decide)]
    rfl
  have hplus : matchAll (.plusCls isDigitB) ds = dropsDescPos ds ds.length := by
    show dropsDescPos ds (ds.takeWhile isDigitB).length = _
    rw [List.takeWhile_eq_self_iff.mpr hds]
  rw [show reAnalyze3 = .seq quoteOpt (.seq (.group reP) (.seq quoteOpt (.seq wsStar
      (altN [strCI "analysis", rseq [strCI "detail", .opt (litCI 's')],
        rseq [strCI "root", wsStar, strCI "cause"]])))) from rfl]
  rw [matchAll_seq, hQ]
  simp only [List.flatMap_cons, List.flatMap_nil, List.append_nil]
  apply List.map_eq_nil_iff.mpr
  rw [matchAll_seq, matchAll_group]
  apply flatMap_eq_nil_of
  intro ra hra
  rw [List.mem_map] at hra
  obtain ⟨rb, hrb, hra2⟩ := hra
  rw [show reP = .seq (litCI 'P') (.seq (litCI '-') (.plusCls isDigitB)) from rfl,
    matchAll_seq, hP] at hrb
  simp only [List.flatMap_cons, List.flatMap_nil, List.append_nil, List.mem_map] at hrb
  obtain ⟨rc, hrc, hrb2⟩ := hrb
  rw [matchAll_seq, hD] at hrc
  simp only [List.flatMap_cons, List.flatMap_nil, List.append_nil, List.mem_map] at hrc
  obtain ⟨rd, hrd, hrc2⟩ := hrc
  rw [hplus] at hrd
  obtain ⟨j, hj1, hj2, hrd2⟩ := mem_dropsDescPos hrd
  have hres : ra.1 = ds.drop j := by
    rw [← hra2, ← hrb2, ← hrc2, hrd2]
  rw [hres, matchAll_rest2_digits (by decide) (by decide)
    (fun c hc => hds c (List.drop_subset j ds hc))]
  rfl

theorem searchAll_pDigits_none {r : RE} (hn : nullable r = false)
    (hp : firstB r 'p' = false) (hm : firstB r '-' = false)
    (hd : ∀ x ∈ digitChars, firstB r x = false)
    {ds : List Char} (hds : ∀ c ∈ ds, isDigitB c = true) :
    searchAll r ('p' :: '-' :: ds) = none := by
  apply searchAll_none_of hn
  intro c hc
  rcases List.mem_cons.mp hc with rfl | hc
  · exact hp
  · rcases List.mem_cons.mp hc with rfl | hc
    · exact hm
    · exact hd c (mem_digitChars (hds c hc))

theorem searchAll_reAnalyze3_pdash {ds : List Char}
    (hds : ∀ c ∈ ds, isDigitB c = true) :
    searchAll reAnalyze3 ('p' :: '-' :: ds) = none := by
  rw [searchAll, matchAll_reAnalyze3_pdash hds]
  apply searchAll_none_of (by decide)
  intro c hc
  rcases List.mem_cons.mp hc with rfl | hc
  · decide
  · exact (by decide : ∀ x ∈ digitChars, firstB reAnalyze3 x = false) c
      (mem_digitChars (hds c hc))

theorem toLower_eq_dash {c : Char} (h : (Char.toLower c).toNat = 45) : c = '-' := by
  rw [toNat_toLower] at h
  split_ifs at h with h1
  · omega
  · exact charToNat_inj (h.trans (by decide : ('-' : Char).toNat = 45).symm)

theorem standalone_shape {s : List Char} {caps : Caps}
    (h : matchFullCaps reStandalone s = some caps) :
    ∃ c0 ds, s = c0 :: '-' :: ds ∧ Char.toLower c0 = 'p' ∧ ds ≠ [] ∧
      ∀ c ∈ ds, isDigitB c = true := by
  unfold matchFullCaps at h
  obtain ⟨e, he, _⟩ := Option.map_eq_some'.mp h
  have hmem0 := List.mem_of_mem_head? he
  rw [List.mem_filter] at hmem0
  obtain ⟨hmem, hempty⟩ := hmem0
  have hres : e.1 = [] := by simpa using hempty
  rw [show reStandalone = .seq (litCI 'P') (.seq (litCI '-') (.plusCls isDigitB))
    from rfl, matchAll_seq] at hmem
  rw [List.mem_flatMap] at hmem
  obtain ⟨ra, hra, hmem⟩ := hmem
  rw [List.mem_map] at hmem
  obtain ⟨rb, hrb, hee⟩ := hmem
  cases s with
  | nil => simp [matchAll, litCI] at hra
  | cons c0 s1 =>
      simp only [matchAll, litCI] at hra
      split at hra
      · next hcond =>
          simp only [List.mem_singleton] at hra
          subst hra
          have hc0 : Char.toLower c0 = 'p' := by
            have := of_decide_eq_true hcond
            exact charToNat_inj (this.trans (by decide))
          rw [matchAll_seq, List.mem_flatMap] at hrb
          obtain ⟨rc, hrc, hrb1⟩ := hrb
          rw [List.mem_map] at hrb1
          obtain ⟨rd, hrd, hee2⟩ := hrb1
          cases s1 with
          | nil => simp [matchAll, litCI] at hrc
          | cons c1 s2 =>
              simp only [matchAll, litCI] at hrc
              split at hrc
              · next hcond2 =>
                  simp only [List.mem_singleton] at hrc
                  subst hrc
                  have hc1 : c1 = '-' := by
                    apply toLower_eq_dash
                    have := of_decide_eq_true hcond2
                    rw [this]
                    decide
                  have hrdm : rd ∈ dropsDescPos s2 (s2.takeWhile isDigitB).length := hrd
                  obtain ⟨j, hj1, hj2, hrd2⟩ := mem_dropsDescPos hrdm
                  have he1 : e.1 = rd.1 := by
                    rw [← hee, ← hee2]
                  have hdrop : s2.drop j = [] := by
                    rw [← (show rd.1 = s2.drop j from by rw [hrd2]), ← he1, hres]
                  have hlen : s2.length ≤ j := List.drop_eq_nil_iff.mp hdrop
                  have hsub : (s2.takeWhile isDigitB).length ≤ s2.length :=
                    (List.takeWhile_sublist isDigitB).length_le
                  have hfull : (s2.takeWhile isDigitB).length = s2.length := by omega
                  have hall : ∀ c ∈ s2, isDigitB c = true := by
                    have := (List.takeWhile_sublist isDigitB).eq_of_length hfull
                    exact fun c hc => List.takeWhile_eq_self_iff.mp this c hc
                  have hne : s2 ≠ [] := by
                    intro hcon
                    rw [hcon] at hlen hj2
                    simp at hj2
                    omega
                  exact ⟨c0, s2, by rw [hc1], hc0, hne, hall⟩
              · simp at hrc
      · simp at hra

/-- Claim C1: every query whose whitespace-stripped form fully matches
`P-\d+` case-insensitively is classified by rule 2's standalone-token
case as `analyze_problem`, with `problem_id` the stripped input
upper-cased; no earlier pattern fires, and the equation shows it never
reaches the topology or later rules. -/
theorem c1_standalone_problem_id (q : List Char)
    (h : (matchFullCaps reStandalone (stripL q)).isSome = true) :
    parse_intent q = ("analyze_problem", [("problem_id", upperL (stripL q))]) := by
  obtain ⟨caps, hcaps⟩ := Option.isSome_iff_exists.mp h
  obtain ⟨c0, ds, hshape, hc0, hne, hds⟩ := standalone_shape hcaps
  have hql : stripL (lowerL q) = 'p' :: '-' :: lowerL ds := by
    rw [← lowerL_stripL, hshape]
    simp only [lowerL, List.map_cons]
    rw [hc0, show Char.toLower '-' = '-' from by decide]
  have hdsl : ∀ c ∈ lowerL ds, isDigitB c = true := by
    intro c hc
    obtain ⟨d, hd, rfl⟩ := List.mem_map.mp hc
    rw [isDigitB_toLower]
    exact hds d hd
  have h1 : problemLoop (stripL (lowerL q)) problem_patterns = none := by
    apply problemLoop_eq_none
    intro p hp
    rw [hql]
    simp only [problem_patterns, List.mem_cons, List.not_mem_nil, or_false] at hp
    rcases hp with rfl | rfl | rfl | rfl | rfl
    · exact searchAll_pDigits_none (by decide) (by decide) (by decide) (by decide) hdsl
    · exact searchAll_pDigits_none (by decide) (by decide) (by decide) (by decide) hdsl
    · exact searchAll_pDigits_none (by decide) (by decide) (by decide) (by decide) hdsl
    · exact searchAll_pDigits_none (by decide) (by decide) (by decide) (by decide) hdsl
    · exact searchAll_pDigits_none (by decide) (by decide) (by decide) (by decide) hdsl
  have h2 : analyzeLoop q (stripL (lowerL q)) analyze_patterns = none := by
    apply analyzeLoop_eq_none
    intro p hp
    rw [hql]
    simp only [analyze_patterns, List.mem_cons, List.not_mem_nil, or_false] at hp
    rcases hp with rfl | rfl | rfl
    · exact searchAll_pDigits_none (by decide) (by decide) (by decide) (by decide) hdsl
    · exact searchAll_pDigits_none (by decide) (by decide) (by decide) (by decide) hdsl
    · exact searchAll_reAnalyze3_pdash hdsl
  exact parse_intent_of_standalone h1 h2 h

theorem c1_witness :
    (matchFullCaps reStandalone (stripL (" p-42 ".toList))).isSome = true ∧
    parse_intent (" p-42 ".toList) =
      ("analyze_problem", [("problem_id", upperL (stripL (" p-42 ".toList)))]) ∧
    upperL (stripL (" p-42 ".toList)) = "P-42".toList :=
  ⟨by decide, c1_standalone_problem_id _ (by decide), by decide⟩

/-! ## Claim C5 -/

theorem quoteOpt_caps {u : List Char} {e : List Char × Caps}
    (h : e ∈ matchAll quoteOpt u) : e.2 = [] := by
  rw [show matchAll quoteOpt u = matchAll (.cls isQuoteB) u ++ [(u, [])] from rfl] at h
  rcases List.mem_append.mp h with h | h
  · cases u with
    | nil => simp [matchAll] at h
    | cons c t =>
        simp only [matchAll] at h
        split at h
        · simp only [List.mem_singleton] at h
          simp [h]
        · simp at h
  · simp only [List.mem_singleton] at h
    simp [h]

theorem lowerL_idem (s : List Char) : lowerL (lowerL s) = lowerL s := by
  simp only [lowerL, List.map_map]
  exact List.map_congr_left (fun c _ => toLower_toLower c)

theorem lowerL_ql_fixed (q : List Char) :
    lowerL (stripL (lowerL q)) = stripL (lowerL q) := by
  rw [lowerL_stripL (lowerL q), lowerL_idem]

theorem lowerL_fixed_of_decomp {v a w b : List Char} (hv : lowerL v = v)
    (hd : v = a ++ w ++ b) : lowerL w = w := by
  rw [hd] at hv
  simp only [lowerL, List.map_append] at hv
  have h1 := List.append_inj hv (by simp [lowerL])
  have h2 := List.append_inj h1.1 (by simp [lowerL])
  exact h2.2

theorem relocRe_caps {name u : List Char} {e : List Char × Caps}
    (h : e ∈ matchAll (relocRe name) u) :
    ∃ cap, e.2 = [cap] ∧ lowerL cap = lowerL name := by
  rw [show relocRe name = .seq quoteOpt (.seq (.group (strCIR name)) quoteOpt) from rfl,
    matchAll_seq, List.mem_flatMap] at h
  obtain ⟨ra, hra, h⟩ := h
  rw [List.mem_map] at h
  obtain ⟨rb, hrb, he⟩ := h
  have hra2 : ra.2 = [] := quoteOpt_caps hra
  rw [matchAll_seq, List.mem_flatMap] at hrb
  obtain ⟨rc, hrc, hrb⟩ := hrb
  rw [List.mem_map] at hrb
  obtain ⟨rd, hrd, he2⟩ := hrb
  rw [matchAll_group, List.mem_map] at hrc
  obtain ⟨rg, hrg, he3⟩ := hrc
  obtain ⟨t, ht, hlt, hgcaps⟩ := matchAll_strCIR_entry hrg
  have hrd2 : rd.2 = [] := quoteOpt_caps hrd
  have hcap : ra.1.take (ra.1.length - rg.1.length) = t := by
    rw [ht, List.length_append, Nat.add_sub_cancel, List.take_left]
  refine ⟨t, ?_, hlt⟩
  rw [← he]
  show ra.2 ++ rb.2 = [t]
  rw [hra2, ← he2]
  show [] ++ (rc.2 ++ rd.2) = [t]
  rw [hrd2, ← he3]
  show [] ++ ((rg.2 ++ [ra.1.take (ra.1.length - rg.1.length)]) ++ []) = [t]
  rw [hgcaps, hcap]
  rfl

theorem relocRe_search_isSome {name q : List Char}
    (hlow : lowerL name = name)
    (hinf : containsSub name (lowerL q) = true) :
    searchAll (relocRe name) q ≠ none := by
  obtain ⟨A, B, hAB⟩ := containsSub_iff.mp hinf
  obtain ⟨u, v, hq1, hu, hv⟩ := List.map_eq_append_iff.mp hAB
  obtain ⟨a1, t, hu1, ha1, hmapt⟩ := List.map_eq_append_iff.mp hu
  have hq2 : q = a1 ++ (t ++ v) := by
    rw [hq1, hu1, List.append_assoc]
  rw [hq2]
  apply searchAll_ne_none_append _ a1
  have hstr : matchAll (strCIR name) (t ++ v) = [(v, [])] :=
    matchAll_strCIR_append (by rw [show lowerL t = List.map Char.toLower t from rfl,
      hmapt, hlow]) v
  have hmem : ((v, [] ++ (([] ++ [(t ++ v).take ((t ++ v).length - v.length)]) ++ []))
        : List Char × Caps) ∈ matchAll (relocRe name) (t ++ v) := by
    rw [show relocRe name = .seq quoteOpt (.seq (.group (strCIR name)) quoteOpt)
      from rfl, matchAll_seq]
    apply List.mem_flatMap.mpr
    refine ⟨(t ++ v, []), ?_, ?_⟩
    · show _ ∈ matchAll (.cls isQuoteB) (t ++ v) ++ [(t ++ v, [])]
      exact List.mem_append_right _ (List.mem_singleton.mpr rfl)
    · apply List.mem_map.mpr
      refine ⟨(v, ([] ++ [(t ++ v).take ((t ++ v).length - v.length)]) ++ []), ?_, rfl⟩
      rw [matchAll_seq, matchAll_group, hstr]
      apply List.mem_flatMap.mpr
      refine ⟨(v, [] ++ [(t ++ v).take ((t ++ v).length - v.length)]), ?_, ?_⟩
      · exact List.mem_singleton.mpr rfl
      · apply List.mem_map.mpr
        refine ⟨(v, []), ?_, rfl⟩
        show _ ∈ matchAll (.cls isQuoteB) v ++ [(v, [])]
        exact List.mem_append_right _ (List.mem_singleton.mpr rfl)
  exact List.ne_nil_of_mem hmem

theorem parse_topology_inv {q : List Char} {ps : Params}
    (h : parse_intent q = ("get_topology", ps)) :
    topologyLoop q (stripL (lowerL q)) topology_patterns =
      some ("get_topology", ps) := by
  simp only [parse_intent] at h
  split at h
  · next r hr =>
      rw [problemLoop_some hr] at h
      have hfst : ("get_problems" : String) = "get_topology" := congrArg Prod.fst h
      exact absurd hfst (by decide)
  · split at h
    · next r hr =>
        obtain ⟨caps, _, hre⟩ := analyzeLoop_some hr
        rw [hre] at h
        have hfst : ("analyze_problem" : String) = "get_topology" := congrArg Prod.fst h
        exact absurd hfst (by decide)
    · split at h
      · have hfst : ("analyze_problem" : String) = "get_topology" := congrArg Prod.fst h
        exact absurd hfst (by decide)
      · split at h
        · next r hr =>
            rw [h] at hr
            exact hr
        · split at h
          · next r hr =>
              obtain ⟨p, _, caps, _, hre⟩ := healthLoop_some hr
              rw [hre] at h
              have hfst : ("get_health" : String) = "get_topology" := congrArg Prod.fst h
              exact absurd hfst (by decide)
          · split at h
            · next r hr =>
                obtain ⟨caps, _, hre⟩ := incidentLoop_some hr
                rw [hre] at h
                have hfst : ("create_incident" : String) = "get_topology" :=
                  congrArg Prod.fst h
                exact absurd hfst (by decide)
            · have hfst : ("query" : String) = "get_topology" := congrArg Prod.fst h
              exact absurd hfst (by decide)

/-- Claim C5: `"Topology for OrderService"` is classified `get_topology`
with the original-case name `OrderService`; in general every
`get_topology` result carries a `service_name` that occurs verbatim in
the original-case query (capitalisation preserved), whose lower-casing
occurs in the lower-cased stripped query (it is the matched name). -/
theorem c5_topology_case_preserved :
    parse_intent ("Topology for OrderService".toList) =
      ("get_topology", [("service_name", "OrderService".toList)]) ∧
    (∀ (q s : List Char),
      parse_intent q = ("get_topology", [("service_name", s)]) →
      containsSub s q = true ∧
      containsSub (lowerL s) (stripL (lowerL q)) = true) := by
  refine ⟨by decide, ?_⟩
  intro q s h
  have htop := parse_topology_inv h
  obtain ⟨p, hp, caps, hsearch, hbr⟩ := topologyLoop_some htop
  have hinf_ql : containsSub (caps.headD []) (stripL (lowerL q)) = true := by
    cases caps with
    | nil => exact containsSub_nil _
    | cons c0 rest =>
        obtain ⟨a, u, restr, hau, hmem⟩ := searchAll_some_ex hsearch
        obtain ⟨x, y, hxy⟩ := matchAll_caps hmem (List.mem_cons_self c0 rest)
        apply containsSub_iff.mpr
        exact ⟨a ++ x, y, by rw [hau, hxy]; simp [List.append_assoc]⟩
  have hlowname : lowerL (caps.headD []) = caps.headD [] := by
    obtain ⟨A, B, hAB⟩ := containsSub_iff.mp hinf_ql
    exact lowerL_fixed_of_decomp (lowerL_ql_fixed q) hAB
  have hreloc : searchAll (relocRe (caps.headD [])) q ≠ none := by
    apply relocRe_search_isSome hlowname
    obtain ⟨A, B, hAB⟩ := containsSub_iff.mp hinf_ql
    obtain ⟨X, Y, hXY⟩ := stripL_decomp (lowerL q)
    apply containsSub_iff.mpr
    exact ⟨X ++ A, B ++ Y, by rw [hXY, hAB]; simp [List.append_assoc]⟩
  rcases hbr with ⟨caps2, hs2, hre⟩ | ⟨hs2, _⟩
  · have hs_eq : s = caps2.headD [] := by
      simp only [Prod.mk.injEq, List.cons.injEq, and_true, true_and] at hre
      exact hre
    obtain ⟨a2, u2, restr2, hau2, hmem2⟩ := searchAll_some_ex hs2
    obtain ⟨cap, hc2, hlow2⟩ := relocRe_caps hmem2
    have hc2' : caps2 = [cap] := hc2
    have hcap_eq : caps2.headD [] = cap := by
      rw [hc2']
      rfl
    constructor
    · rw [hs_eq, hcap_eq]
      have hcmem : cap ∈ caps2 := by
        rw [hc2']
        exact List.mem_singleton.mpr rfl
      obtain ⟨x, y, hxy⟩ := matchAll_caps hmem2 hcmem
      apply containsSub_iff.mpr
      exact ⟨a2 ++ x, y, by rw [hau2, hxy]; simp [List.append_assoc]⟩
    · rw [hs_eq, hcap_eq, hlow2, hlowname]
      exact hinf_ql
  · exact absurd hs2 hreloc

theorem c5_witness :
    parse_intent ("Dependencies of Payment-Service".toList) =
      ("get_topology", [("service_name", "Payment-Service".toList)]) ∧
    containsSub ("Payment-Service".toList)
      ("Dependencies of Payment-Service".toList) = true ∧
    containsSub (lowerL ("Payment-Service".toList))
      (stripL (lowerL ("Dependencies of Payment-Service".toList))) = true := by
  have h := c5_topology_case_preserved.2 ("Dependencies of Payment-Service".toList)
    ("Payment-Service".toList) (by decide)
  exact ⟨by decide, h.1, h.2⟩
